import Mathlib

/-!
Verification development for the hivevoice ledger-backed invoicing core.

The TypeScript sources are shallowly embedded as Lean definitions:

* `src/utils/memo-crypto.ts` — the payload codec (`encryptJSON` / `decryptJSON`).
  The codec delegates serialization to the JavaScript builtins
  `JSON.stringify` / `JSON.parse` and the encryption to the dhive
  `Memo.encode` / `Memo.decode` primitives; those externals are modelled
  here (per the spec: a canonical textual JSON form, a `#` sentinel, and an
  ECDH-derived symmetric cipher whose shared secret agrees for
  (sender-private, recipient-public) and (recipient-private, sender-public)).
* `src/unnamed/part_014` — `PaymentMonitorService` (transfer processing,
  memo parsing, invoice status state machine, block scan loop).
* `src/unnamed/part_010` — the SQLite schema (`Database.initialize`).
* `src/api/invoices.ts` — the invoice-creation handler with its
  compensating deletion.

Strings are modelled as `List Char`; JavaScript numbers as exact rationals
(kernel-computable unreduced fractions `Amt`, interpreted into `ℚ`), with
`Option Amt` where `NaN` can arise (`none` plays `NaN`).
-/

namespace Hivevoice

/-! ## Character and string helpers -/

/-- Digit character test, as in the regex class `\d` (`0`–`9`). -/
def isDigitChar (c : Char) : Bool := 48 ≤ c.toNat && c.toNat ≤ 57

/-- Uppercase ASCII letter, as in the case-sensitive regex class `[A-Z]`. -/
def isUpperChar (c : Char) : Bool := 65 ≤ c.toNat && c.toNat ≤ 90

/-- Lowercase ASCII letter. -/
def isLowerChar (c : Char) : Bool := 97 ≤ c.toNat && c.toNat ≤ 122

/-- ASCII letter of either case, as `[A-Z]` under the regex `i` flag. -/
def isAlphaChar (c : Char) : Bool := isUpperChar c || isLowerChar c

/-- Whitespace, as in the regex class `\s` (space, tab, LF, CR). -/
def isSpaceChar (c : Char) : Bool :=
  c = ' ' || c = '\t' || c = '\n' || c = '\r'

/-- ASCII lowercasing of a single character (used to model the regex
`i` flag and, on key strings, nothing — keys are digit strings). -/
def lowerChar (c : Char) : Char :=
  if isUpperChar c then Char.ofNat (c.toNat + 32) else c

/-- A string is blank when it is empty or whitespace only; this models the
JavaScript test `!s || s.trim() === ''`. -/
def isBlank (s : List Char) : Bool := s.all isSpaceChar

/-- `l.startsWith p` — does `l` begin with `p`? (Models `String.startsWith`
and the anchored part of substring search.) -/
def strStartsWith : List Char → List Char → Bool
  | _, [] => true
  | [], _ :: _ => false
  | c :: cs, d :: ds => c = d && strStartsWith cs ds

/-- Substring containment, modelling JavaScript `String.includes`. -/
def strContains : List Char → List Char → Bool
  | [], needle => strStartsWith [] needle
  | hay@(_ :: rest), needle => strStartsWith hay needle || strContains rest needle

theorem strStartsWith_refl_append (p rest : List Char) :
    strStartsWith (p ++ rest) p = true := by
  induction p with
  | nil => cases rest <;> rfl
  | cons c cs ih => simp [strStartsWith, ih]

/-! ## Decimal numerals

`JSON.stringify` prints integers in decimal; `JSON.parse` and the memo
patterns read decimal digit runs.  `natChars` / `charsToNat` model this
with a proved round trip. -/

/-- Most-significant-first decimal digits of `n`, with explicit fuel so the
definition is structurally recursive (any fuel `≥` the digit count works;
`natChars` supplies `n` itself). -/
def natCharsAux : Nat → Nat → List Char
  | 0, _ => []
  | fuel + 1, n =>
    if n = 0 then [] else natCharsAux fuel (n / 10) ++ [Nat.digitChar (n % 10)]

/-- Decimal digit characters of `n`, most significant first. -/
def natChars (n : Nat) : List Char :=
  if n = 0 then ['0'] else natCharsAux n n

/-- Value of a decimal digit run (as read by a numeric parser). -/
def charsToNat (s : List Char) : Nat :=
  s.foldl (fun acc c => 10 * acc + (c.toNat - 48)) 0

theorem digitChar_isDigit {d : Nat} (h : d < 10) :
    isDigitChar (Nat.digitChar d) = true := by
  interval_cases d <;> rfl

theorem digitChar_toNat {d : Nat} (h : d < 10) :
    (Nat.digitChar d).toNat - 48 = d := by
  interval_cases d <;> rfl

theorem natChars_ne_nil (n : Nat) : natChars n ≠ [] := by
  unfold natChars
  split
  · simp
  · rename_i h
    obtain ⟨m, rfl⟩ : ∃ m, n = m + 1 := ⟨n - 1, by omega⟩
    simp [natCharsAux, h]

theorem natCharsAux_all_digits :
    ∀ fuel n, ∀ c ∈ natCharsAux fuel n, isDigitChar c = true := by
  intro fuel
  induction fuel with
  | zero => intro n c hc; simp [natCharsAux] at hc
  | succ fuel ih =>
    intro n c hc
    unfold natCharsAux at hc
    split at hc
    · simp at hc
    · rw [List.mem_append] at hc
      rcases hc with hc | hc
      · exact ih _ c hc
      · simp at hc
        subst hc
        exact digitChar_isDigit (Nat.mod_lt _ (by omega))

theorem natChars_all_digits (n : Nat) :
    ∀ c ∈ natChars n, isDigitChar c = true := by
  intro c hc
  unfold natChars at hc
  split at hc
  · simp at hc; subst hc; rfl
  · exact natCharsAux_all_digits n n c hc

theorem charsToNat_append_digit (A : List Char) (c : Char) :
    charsToNat (A ++ [c]) = 10 * charsToNat A + (c.toNat - 48) := by
  unfold charsToNat
  rw [List.foldl_append]
  rfl

theorem charsToNat_natCharsAux : ∀ fuel n, n ≤ fuel →
    charsToNat (natCharsAux fuel n) = n := by
  intro fuel
  induction fuel with
  | zero => intro n h; interval_cases n; rfl
  | succ fuel ih =>
    intro n h
    unfold natCharsAux
    split
    · rename_i h0; subst h0; rfl
    · rename_i h0
      rw [charsToNat_append_digit, ih (n / 10) (by omega),
        digitChar_toNat (Nat.mod_lt _ (by omega))]
      omega

theorem charsToNat_natChars (n : Nat) : charsToNat (natChars n) = n := by
  unfold natChars
  split
  · rename_i h; subst h; rfl
  · exact charsToNat_natCharsAux n n le_rfl

/-! ## JSON values and the textual codec

Models the JavaScript builtins `JSON.stringify` / `JSON.parse` used by
`encryptJSON` / `decryptJSON` in `src/utils/memo-crypto.ts`.  Values cover
nulls, booleans, integers, unicode strings, arrays and (possibly empty)
objects; `stringify` prints the canonical compact form and the recursive
descent `parseV` reads it back. -/

inductive Json where
  | null : Json
  | bool (b : Bool) : Json
  | num (n : Int) : Json
  | str (s : List Char) : Json
  | arr (elems : List Json) : Json
  | obj (fields : List (List Char × Json)) : Json

/-- The `{` character (written via its code point). -/
def lbrace : Char := Char.ofNat 123

/-- The `}` character (written via its code point). -/
def rbrace : Char := Char.ofNat 125

/-- JSON string escaping for the quote and backslash characters; all other
characters (including unicode text) pass through literally. -/
def escChar (c : Char) : List Char :=
  if c = '"' || c = '\\' then ['\\', c] else [c]

/-- Escape a whole string body. -/
def escString (s : List Char) : List Char :=
  s.foldr (fun c acc => escChar c ++ acc) []

/-- A quoted JSON string literal. -/
def strLit (s : List Char) : List Char := '"' :: (escString s ++ ['"'])

/-- Decimal printing of an integer. -/
def intChars : Int → List Char
  | .ofNat n => natChars n
  | .negSucc n => '-' :: natChars (n + 1)

mutual

def stringify : Json → List Char
  | .null => 'n' :: ['u', 'l', 'l']
  | .bool true => 't' :: ['r', 'u', 'e']
  | .bool false => 'f' :: ['a', 'l', 's', 'e']
  | .num i => intChars i
  | .str s => strLit s
  | .arr xs => '[' :: stringifyElems xs
  | .obj fs => lbrace :: stringifyFields fs

def stringifyElems : List Json → List Char
  | [] => [']']
  | [x] => stringify x ++ [']']
  | x :: xs => stringify x ++ ',' :: stringifyElems xs

def stringifyFields : List (List Char × Json) → List Char
  | [] => [rbrace]
  | [(k, v)] => strLit k ++ ':' :: (stringify v ++ [rbrace])
  | (k, v) :: gs => strLit k ++ ':' :: (stringify v ++ ',' :: stringifyFields gs)

end

/-! `jsize` is the recursion measure for JSON values, used as the parser
fuel bound. -/

mutual

def jsize : Json → Nat
  | .null => 1
  | .bool _ => 1
  | .num _ => 1
  | .str _ => 1
  | .arr xs => 1 + jsizeL xs
  | .obj fs => 1 + jsizeF fs

def jsizeL : List Json → Nat
  | [] => 0
  | x :: xs => 1 + jsize x + jsizeL xs

def jsizeF : List (List Char × Json) → Nat
  | [] => 0
  | (k, v) :: fs => 1 + jsize v + jsizeF fs

end

/-- Consume an expected literal continuation (e.g. `ull` after `n`). -/
def parseLit : List Char → List Char → Option (List Char)
  | [], s => some s
  | l :: lt, c :: s => if c = l then parseLit lt s else none
  | _ :: _, [] => none

/-- Parse a string body up to the closing unescaped quote. -/
def parseStrBody : List Char → Option (List Char × List Char)
  | [] => none
  | '"' :: r => some ([], r)
  | '\\' :: d :: r2 =>
    if d = '"' || d = '\\' then (parseStrBody r2).map (fun p => (d :: p.1, p.2)) else none
  | '\\' :: [] => none
  | c :: r => (parseStrBody r).map (fun p => (c :: p.1, p.2))

/-- Parse a nonempty decimal digit run. -/
def parseNatChars (s : List Char) : Option (Nat × List Char) :=
  let ds := s.takeWhile isDigitChar
  if ds = [] then none else some (charsToNat ds, s.dropWhile isDigitChar)

/-- Does the input *not* begin with a digit (so it cannot extend a numeral)? -/
def headNotDigit : List Char → Bool
  | [] => true
  | c :: _ => !isDigitChar c

mutual

def parseV : Nat → List Char → Option (Json × List Char)
  | 0, _ => none
  | fuel + 1, s =>
    match s with
    | [] => none
    | c :: s1 =>
      if c = 'n' then (parseLit ['u', 'l', 'l'] s1).map (fun r => (Json.null, r))
      else if c = 't' then (parseLit ['r', 'u', 'e'] s1).map (fun r => (Json.bool true, r))
      else if c = 'f' then (parseLit ['a', 'l', 's', 'e'] s1).map (fun r => (Json.bool false, r))
      else if c = '"' then (parseStrBody s1).map (fun p => (Json.str p.1, p.2))
      else if c = '[' then
        match s1 with
        | [] => none
        | d :: r =>
          if d = ']' then some (Json.arr [], r)
          else (parseElems fuel (d :: r)).map (fun p => (Json.arr p.1, p.2))
      else if c = lbrace then
        match s1 with
        | [] => none
        | d :: r =>
          if d = rbrace then some (Json.obj [], r)
          else (parseFields fuel (d :: r)).map (fun p => (Json.obj p.1, p.2))
      else if c = '-' then
        (parseNatChars s1).map (fun p => (Json.num (-(p.1 : Int)), p.2))
      else if isDigitChar c then
        (parseNatChars (c :: s1)).map (fun p => (Json.num (p.1 : Int), p.2))
      else none

def parseElems : Nat → List Char → Option (List Json × List Char)
  | 0, _ => none
  | fuel + 1, s =>
    (parseV fuel s).bind (fun p =>
      match p.2 with
      | [] => none
      | d :: r =>
        if d = ',' then (parseElems fuel r).map (fun q => (p.1 :: q.1, q.2))
        else if d = ']' then some ([p.1], r)
        else none)

def parseFields : Nat → List Char → Option (List (List Char × Json) × List Char)
  | 0, _ => none
  | fuel + 1, s =>
    match s with
    | [] => none
    | c :: s1 =>
      if c = '"' then
        (parseStrBody s1).bind (fun kp =>
          match kp.2 with
          | [] => none
          | d :: r =>
            if d = ':' then
              (parseV fuel r).bind (fun vp =>
                match vp.2 with
                | [] => none
                | e :: r2 =>
                  if e = ',' then
                    (parseFields fuel r2).map (fun q => ((kp.1, vp.1) :: q.1, q.2))
                  else if e = rbrace then some ([(kp.1, vp.1)], r2)
                  else none)
            else none)
      else none

end

/-- Model of `JSON.parse` restricted to exactly the forms `stringify`
produces: the whole input must be consumed. -/
def parseJson (s : List Char) : Option Json :=
  match parseV (s.length + 1) s with
  | some (v, []) => some v
  | _ => none

/-! ### Round trip: `parseJson` inverts `stringify` -/

theorem takeWhile_append_all {p : Char → Bool} {l : List Char} (r : List Char)
    (h : ∀ c ∈ l, p c = true) : (l ++ r).takeWhile p = l ++ r.takeWhile p := by
  induction l with
  | nil => simp
  | cons c t ih =>
    have hc := h c (by simp)
    have ht := ih (fun x hx => h x (by simp [hx]))
    simp [List.takeWhile_cons, hc, ht]

theorem dropWhile_append_all {p : Char → Bool} {l : List Char} (r : List Char)
    (h : ∀ c ∈ l, p c = true) : (l ++ r).dropWhile p = r.dropWhile p := by
  induction l with
  | nil => simp
  | cons c t ih =>
    have hc := h c (by simp)
    have ht := ih (fun x hx => h x (by simp [hx]))
    simp [List.dropWhile_cons, hc, ht]

theorem takeWhile_of_headNot {r : List Char} (h : headNotDigit r = true) :
    r.takeWhile isDigitChar = [] := by
  cases r with
  | nil => rfl
  | cons c t => simp_all [headNotDigit, List.takeWhile_cons]

theorem dropWhile_of_headNot {r : List Char} (h : headNotDigit r = true) :
    r.dropWhile isDigitChar = r := by
  cases r with
  | nil => rfl
  | cons c t => simp_all [headNotDigit, List.dropWhile_cons]

theorem parseNatChars_round (n : Nat) {rest : List Char} (h : headNotDigit rest = true) :
    parseNatChars (natChars n ++ rest) = some (n, rest) := by
  unfold parseNatChars
  rw [takeWhile_append_all rest (natChars_all_digits n), takeWhile_of_headNot h,
    dropWhile_append_all rest (natChars_all_digits n), dropWhile_of_headNot h,
    List.append_nil]
  simp [natChars_ne_nil n, charsToNat_natChars]

theorem parseLit_round (lit rest : List Char) : parseLit lit (lit ++ rest) = some rest := by
  induction lit with
  | nil => rfl
  | cons l lt ih => simp [parseLit, ih]

theorem parseStrBody_esc {d : Char} (r : List Char) (h : d = '"' ∨ d = '\\') :
    parseStrBody ('\\' :: d :: r) = (parseStrBody r).map (fun p => (d :: p.1, p.2)) := by
  rcases h with h | h <;> subst h <;> rfl

theorem parseStrBody_lit {c : Char} (r : List Char) (h1 : c ≠ '"') (h2 : c ≠ '\\') :
    parseStrBody (c :: r) = (parseStrBody r).map (fun p => (c :: p.1, p.2)) := by
  simp [parseStrBody, h1, h2]

theorem parseStrBody_round (s rest : List Char) :
    parseStrBody (escString s ++ '"' :: rest) = some (s, rest) := by
  induction s with
  | nil => rfl
  | cons c t ih =>
    have hesc : escString (c :: t) = escChar c ++ escString t := rfl
    by_cases hc : c = '"' ∨ c = '\\'
    · have hch : escChar c = ['\\', c] := by
        rcases hc with h | h <;> simp [escChar, h]
      rw [hesc, hch]
      simp only [List.cons_append, List.singleton_append, List.nil_append, List.append_assoc]
      rw [parseStrBody_esc _ hc, ih]
      rfl
    · push_neg at hc
      have hch : escChar c = [c] := by simp [escChar, hc.1, hc.2]
      rw [hesc, hch]
      simp only [List.cons_append, List.singleton_append, List.nil_append, List.append_assoc]
      rw [parseStrBody_lit _ hc.1 hc.2, ih]
      rfl

/-- Digit characters are distinct from every JSON delimiter the parser
dispatches on. -/
theorem isDigitChar_ne {c : Char} (h : isDigitChar c = true) :
    c ≠ 'n' ∧ c ≠ 't' ∧ c ≠ 'f' ∧ c ≠ '"' ∧ c ≠ '[' ∧ c ≠ lbrace ∧ c ≠ '-' ∧
      c ≠ ']' ∧ c ≠ rbrace ∧ c ≠ ',' ∧ c ≠ ':' := by
  refine ⟨?_, ?_, ?_, ?_, ?_, ?_, ?_, ?_, ?_, ?_, ?_⟩ <;>
    (rintro rfl; revert h; decide)

/-- Every serialized value starts with a character other than `]` (needed
to recognize the empty array). -/
theorem stringify_head (v : Json) :
    ∃ c t, stringify v = c :: t ∧ c ≠ ']' := by
  cases v with
  | null => exact ⟨'n', _, rfl, by decide⟩
  | bool b =>
    cases b with
    | false => exact ⟨'f', _, rfl, by decide⟩
    | true => exact ⟨'t', _, rfl, by decide⟩
  | num i =>
    cases i with
    | ofNat n =>
      obtain ⟨c, t, hct⟩ := List.exists_cons_of_ne_nil (natChars_ne_nil n)
      refine ⟨c, t, ?_, ?_⟩
      · show intChars (Int.ofNat n) = c :: t
        simpa [intChars] using hct
      · have : isDigitChar c = true := natChars_all_digits n c (by simp [hct])
        exact (isDigitChar_ne this).2.2.2.2.2.2.2.1
    | negSucc n => exact ⟨'-', _, rfl, by decide⟩
  | str s => exact ⟨'"', _, rfl, by decide⟩
  | arr xs => exact ⟨'[', _, rfl, by decide⟩
  | obj fs => exact ⟨lbrace, _, rfl, by decide⟩

theorem jsize_pos (v : Json) : 1 ≤ jsize v := by
  cases v <;> simp [jsize] <;> omega

theorem jsize_eq_arr (xs : List Json) : jsize (Json.arr xs) = 1 + jsizeL xs := rfl

theorem jsize_eq_obj (fs : List (List Char × Json)) :
    jsize (Json.obj fs) = 1 + jsizeF fs := rfl

/-- The parser inverts the serializer: mutual statement for values,
array-element lists, and object-field lists, by induction on fuel. -/
theorem parse_round : ∀ fuel : Nat,
    (∀ v rest, jsize v < fuel → headNotDigit rest = true →
      parseV fuel (stringify v ++ rest) = some (v, rest)) ∧
    (∀ xs rest, xs ≠ [] → jsizeL xs < fuel →
      parseElems fuel (stringifyElems xs ++ rest) = some (xs, rest)) ∧
    (∀ fs rest, fs ≠ [] → jsizeF fs < fuel →
      parseFields fuel (stringifyFields fs ++ rest) = some (fs, rest)) := by
  intro fuel
  induction fuel with
  | zero =>
    exact ⟨fun v rest h _ => absurd h (by omega), fun xs rest _ h => absurd h (by omega),
      fun fs rest _ h => absurd h (by omega)⟩
  | succ fuel ih =>
    obtain ⟨ihV, ihL, ihF⟩ := ih
    refine ⟨?_, ?_, ?_⟩
    · intro v rest hsz hnd
      cases v with
      | null => simp [stringify, parseV, parseLit]
      | bool b => cases b <;> simp [stringify, parseV, parseLit]
      | num i =>
        cases i with
        | ofNat n =>
          obtain ⟨c, t, hct⟩ := List.exists_cons_of_ne_nil (natChars_ne_nil n)
          have hdig : isDigitChar c = true := natChars_all_digits n c (by simp [hct])
          obtain ⟨h1, h2, h3, h4, h5, h6, h7, -⟩ := isDigitChar_ne hdig
          have hs : stringify (Json.num (Int.ofNat n)) = c :: t := by
            simp [stringify, intChars, hct]
          rw [hs, List.cons_append]
          have hpn : parseNatChars (c :: (t ++ rest)) = some (n, rest) := by
            rw [← List.cons_append, ← hct]
            exact parseNatChars_round n hnd
          simp [parseV, h1, h2, h3, h4, h5, h6, h7, hdig, hpn]
        | negSucc n =>
          have hs : stringify (Json.num (Int.negSucc n)) = '-' :: natChars (n + 1) := by
            simp [stringify, intChars]
          rw [hs, List.cons_append]
          have hpn : parseNatChars (natChars (n + 1) ++ rest) = some (n + 1, rest) :=
            parseNatChars_round (n + 1) hnd
          have hm6 : ¬('-' = lbrace) := by decide
          simp [parseV, hpn, hm6, Int.negSucc_eq]
      | str s =>
        have hs : stringify (Json.str s) ++ rest = '"' :: (escString s ++ '"' :: rest) := by
          simp [stringify, strLit]
        rw [hs]
        simp [parseV, parseStrBody_round]
      | arr xs =>
        cases xs with
        | nil => simp [stringify, stringifyElems, parseV]
        | cons x xs =>
          obtain ⟨c, t, hct, hcne⟩ := stringify_head x
          have hsz' : jsizeL (x :: xs) < fuel := by
            rw [jsize_eq_arr] at hsz; omega
          obtain ⟨S, hS⟩ : ∃ S, stringifyElems (x :: xs) ++ rest = c :: S := by
            cases xs <;> simp [stringifyElems, hct]
          have hrec := ihL (x :: xs) rest (by simp) hsz'
          rw [hS] at hrec
          have hgoal : stringify (Json.arr (x :: xs)) ++ rest =
              '[' :: (c :: S) := by
            rw [← hS]; simp [stringify]
          rw [hgoal]
          simp [parseV, hcne, hrec]
      | obj fs =>
        cases fs with
        | nil => simp [stringify, stringifyFields, parseV, lbrace, rbrace]
        | cons f fs =>
          obtain ⟨k, v⟩ := f
          have hsz' : jsizeF ((k, v) :: fs) < fuel := by
            rw [jsize_eq_obj] at hsz; omega
          obtain ⟨S, hS⟩ : ∃ S, stringifyFields ((k, v) :: fs) ++ rest = '"' :: S := by
            cases fs <;> simp [stringifyFields, strLit]
          have hrec := ihF ((k, v) :: fs) rest (by simp) hsz'
          rw [hS] at hrec
          have hgoal : stringify (Json.obj ((k, v) :: fs)) ++ rest =
              lbrace :: ('"' :: S) := by
            rw [← hS]; simp [stringify]
          rw [hgoal]
          have hq : ¬('"' : Char) = rbrace := by decide
          simp [parseV, lbrace, rbrace, hq, hrec]
    · intro xs rest hne hsz
      cases xs with
      | nil => exact absurd rfl hne
      | cons x xs =>
        cases xs with
        | nil =>
          have hx : jsize x < fuel := by
            have h0 : jsizeL [x] = 1 + jsize x + 0 := rfl
            omega
          have hv := ihV x (']' :: rest) hx rfl
          have hgoal : stringifyElems [x] ++ rest = stringify x ++ (']' :: rest) := by
            simp [stringifyElems]
          rw [hgoal]
          simp [parseElems, hv]
        | cons y ys =>
          have hx : jsize x < fuel := by
            have h0 : jsizeL (x :: y :: ys) = 1 + jsize x + jsizeL (y :: ys) := rfl
            omega
          have hys : jsizeL (y :: ys) < fuel := by
            have h0 : jsizeL (x :: y :: ys) = 1 + jsize x + jsizeL (y :: ys) := rfl
            have h1 := jsize_pos x
            omega
          have hv := ihV x (',' :: (stringifyElems (y :: ys) ++ rest)) hx rfl
          have hrec := ihL (y :: ys) rest (by simp) hys
          have hgoal : stringifyElems (x :: y :: ys) ++ rest =
              stringify x ++ (',' :: (stringifyElems (y :: ys) ++ rest)) := by
            simp [stringifyElems]
          rw [hgoal]
          simp [parseElems, hv, hrec]
    · intro fs rest hne hsz
      cases fs with
      | nil => exact absurd rfl hne
      | cons f fs =>
        obtain ⟨k, v⟩ := f
        cases fs with
        | nil =>
          have hv : jsize v < fuel := by
            have h0 : jsizeF [(k, v)] = 1 + jsize v + 0 := rfl
            omega
          have hval := ihV v (rbrace :: rest) hv rfl
          have hgoal : stringifyFields [(k, v)] ++ rest =
              '"' :: (escString k ++ '"' :: (':' :: (stringify v ++ rbrace :: rest))) := by
            simp [stringifyFields, strLit]
          rw [hgoal]
          have hq : ¬(rbrace = ',') := by decide
          simp [parseFields, parseStrBody_round, hval, hq]
        | cons g gs =>
          have hv : jsize v < fuel := by
            have h0 : jsizeF ((k, v) :: g :: gs) = 1 + jsize v + jsizeF (g :: gs) := by
              cases g; rfl
            omega
          have hgs : jsizeF (g :: gs) < fuel := by
            have h0 : jsizeF ((k, v) :: g :: gs) = 1 + jsize v + jsizeF (g :: gs) := by
              cases g; rfl
            have h1 := jsize_pos v
            omega
          have hval := ihV v (',' :: (stringifyFields (g :: gs) ++ rest)) hv rfl
          have hrec := ihF (g :: gs) rest (by simp) hgs
          have hgoal : stringifyFields ((k, v) :: g :: gs) ++ rest =
              '"' :: (escString k ++ '"' ::
                (':' :: (stringify v ++ ',' :: (stringifyFields (g :: gs) ++ rest)))) := by
            simp [stringifyFields, strLit]
          rw [hgoal]
          simp [parseFields, parseStrBody_round, hval, hrec]

/-- The serialized form is at least as long as the `jsize` measure, so
`length + 1` is always enough parser fuel. -/
theorem size_le_len : ∀ n : Nat,
    (∀ v, jsize v ≤ n → jsize v ≤ (stringify v).length) ∧
    (∀ xs, xs ≠ [] → jsizeL xs ≤ n → jsizeL xs ≤ (stringifyElems xs).length) ∧
    (∀ fs, fs ≠ [] → jsizeF fs ≤ n → jsizeF fs ≤ (stringifyFields fs).length) := by
  intro n
  induction n with
  | zero =>
    refine ⟨fun v h => absurd h (by have := jsize_pos v; omega), ?_, ?_⟩
    · intro xs hne h
      cases xs with
      | nil => exact absurd rfl hne
      | cons x t =>
        have : jsizeL (x :: t) = 1 + jsize x + jsizeL t := rfl
        omega
    · intro fs hne h
      cases fs with
      | nil => exact absurd rfl hne
      | cons f t =>
        obtain ⟨k, v⟩ := f
        have : jsizeF ((k, v) :: t) = 1 + jsize v + jsizeF t := rfl
        omega
  | succ n ih =>
    obtain ⟨ihV, ihL, ihF⟩ := ih
    refine ⟨?_, ?_, ?_⟩
    · intro v hsz
      cases v with
      | null => simp [stringify, jsize]
      | bool b => cases b <;> simp [stringify, jsize]
      | num i =>
        have : (stringify (Json.num i)).length ≥ 1 := by
          cases i with
          | ofNat m =>
            have h := natChars_ne_nil m
            have : stringify (Json.num (Int.ofNat m)) = natChars m := by
              simp [stringify, intChars]
            rw [this]
            cases hn : natChars m with
            | nil => exact absurd hn h
            | cons a b => simp
          | negSucc m => simp [stringify, intChars]
        have hj : jsize (Json.num i) = 1 := rfl
        omega
      | str s =>
        have : stringify (Json.str s) = '"' :: (escString s ++ ['"']) := rfl
        rw [this]
        have hj : jsize (Json.str s) = 1 := rfl
        simp [hj]
      | arr xs =>
        cases xs with
        | nil => simp [stringify, stringifyElems, jsize, jsizeL]
        | cons x t =>
          have h1 : jsize (Json.arr (x :: t)) = 1 + jsizeL (x :: t) := rfl
          have h2 : (stringify (Json.arr (x :: t))).length =
              1 + (stringifyElems (x :: t)).length := by simp [stringify]; omega
          have h3 : jsizeL (x :: t) ≤ n := by omega
          have h4 := ihL (x :: t) (by simp) h3
          omega
      | obj fs =>
        cases fs with
        | nil => simp [stringify, stringifyFields, jsize, jsizeF]
        | cons f t =>
          obtain ⟨k, v⟩ := f
          have h1 : jsize (Json.obj ((k, v) :: t)) = 1 + jsizeF ((k, v) :: t) := rfl
          have h2 : (stringify (Json.obj ((k, v) :: t))).length =
              1 + (stringifyFields ((k, v) :: t)).length := by simp [stringify]; omega
          have h3 : jsizeF ((k, v) :: t) ≤ n := by omega
          have h4 := ihF ((k, v) :: t) (by simp) h3
          omega
    · intro xs hne hsz
      cases xs with
      | nil => exact absurd rfl hne
      | cons x t =>
        cases t with
        | nil =>
          have h1 : jsizeL [x] = 1 + jsize x + 0 := rfl
          have h2 : (stringifyElems [x]).length = (stringify x).length + 1 := by
            simp [stringifyElems]
          have h3 := ihV x (by omega)
          omega
        | cons y ys =>
          have h1 : jsizeL (x :: y :: ys) = 1 + jsize x + jsizeL (y :: ys) := rfl
          have h2 : (stringifyElems (x :: y :: ys)).length =
              (stringify x).length + 1 + (stringifyElems (y :: ys)).length := by
            simp [stringifyElems]; omega
          have h3 := ihV x (by omega)
          have h4 := ihL (y :: ys) (by simp) (by omega)
          omega
    · intro fs hne hsz
      cases fs with
      | nil => exact absurd rfl hne
      | cons f t =>
        obtain ⟨k, v⟩ := f
        cases t with
        | nil =>
          have h1 : jsizeF [(k, v)] = 1 + jsize v + 0 := rfl
          have h2 : (stringifyFields [(k, v)]).length =
              (strLit k).length + 1 + ((stringify v).length + 1) := by
            simp [stringifyFields]; omega
          have h3 := ihV v (by omega)
          omega
        | cons g gs =>
          have h1 : jsizeF ((k, v) :: g :: gs) = 1 + jsize v + jsizeF (g :: gs) := by
            cases g; rfl
          have h2 : (stringifyFields ((k, v) :: g :: gs)).length =
              (strLit k).length + 1 + ((stringify v).length + 1 +
                (stringifyFields (g :: gs)).length) := by
            simp [stringifyFields]; omega
          have h3 := ihV v (by omega)
          have h4 := ihF (g :: gs) (by simp) (by omega)
          omega

/-- Round trip of the modelled JSON codec: parsing a serialized value
recovers it exactly. -/
theorem parseJson_stringify (v : Json) : parseJson (stringify v) = some v := by
  have h1 := (size_le_len (jsize v)).1 v le_rfl
  have h2 := (parse_round ((stringify v).length + 1)).1 v [] (by omega) rfl
  rw [List.append_nil] at h2
  simp [parseJson, h2]

/-! ## The dhive memo cipher

Modelled from the spec (§4.2, §9): the dhive `Memo.encode` / `Memo.decode`
primitives are an elliptic-curve Diffie–Hellman key agreement between
sender-private and recipient-public keys deriving a symmetric key, plus a
randomized symmetric cipher; the agreement computed from
(recipient-private, sender-public) yields the same key, and the ciphertext
header carries both parties' public keys so either party can decrypt with
only their own private key.  The group is modelled as modular
exponentiation; the symmetric cipher as an additive per-character mask. -/

/-- Group modulus of the modelled key agreement. -/
def memoP : Nat := 2147483647

/-- Group generator of the modelled key agreement. -/
def memoG : Nat := 7

/-- Public key derived from a private scalar. -/
def pubOf (priv : Nat) : Nat := memoG ^ priv % memoP

/-- Diffie–Hellman shared secret from one's own private scalar and the
counterparty's public element. -/
def sharedSecret (priv pub : Nat) : Nat := pub ^ priv % memoP

theorem sharedSecret_comm (a b : Nat) :
    sharedSecret a (pubOf b) = sharedSecret b (pubOf a) := by
  unfold sharedSecret pubOf
  rw [← Nat.pow_mod, ← Nat.pow_mod, ← pow_mul, ← pow_mul, Nat.mul_comm]

/-- A ciphertext: both parties' public keys in the header (as in Hive
encrypted memos), the encryption randomness, and the masked payload. -/
structure MemoCipher where
  fromPub : Nat
  toPub : Nat
  nonce : Nat
  payload : List Nat
deriving DecidableEq

/-- Randomized symmetric encryption: shift each code point by key+nonce. -/
def symEncrypt (key nonce : Nat) (msg : List Char) : List Nat :=
  msg.map (fun c => c.toNat + key + nonce)

/-- Symmetric decryption (inverse shift; a wrong key yields garbage). -/
def symDecrypt (key nonce : Nat) (payload : List Nat) : List Char :=
  payload.map (fun x => Char.ofNat (x - (key + nonce)))

/-- Model of dhive `Memo.encode`: derive the shared key from own private
and counterparty public key, mask the message. -/
def memoEncode (priv toPub nonce : Nat) (msg : List Char) : MemoCipher :=
  ⟨pubOf priv, toPub, nonce, symEncrypt (sharedSecret priv toPub) nonce msg⟩

/-- Model of dhive `Memo.decode`: recover the counterpart public key from
the ciphertext header and derive the same shared key. -/
def memoDecode (priv : Nat) (c : MemoCipher) : List Char :=
  let other := if pubOf priv = c.toPub then c.fromPub else c.toPub
  symDecrypt (sharedSecret priv other) c.nonce c.payload

theorem symDecrypt_symEncrypt (key nonce : Nat) (msg : List Char) :
    symDecrypt key nonce (symEncrypt key nonce msg) = msg := by
  unfold symDecrypt symEncrypt
  rw [List.map_map]
  induction msg with
  | nil => rfl
  | cons c t ih =>
    rw [List.map_cons, ih]
    have h : c.toNat + key + nonce - (key + nonce) = c.toNat := by omega
    simp only [Function.comp_apply, h, Char.ofNat_toNat]

theorem memoDecode_recipient (a b nonce : Nat) (msg : List Char) :
    memoDecode b (memoEncode a (pubOf b) nonce msg) = msg := by
  unfold memoDecode memoEncode
  simp only [if_true, if_pos trivial]
  rw [← sharedSecret_comm a b]
  exact symDecrypt_symEncrypt _ _ _

theorem memoDecode_sender (a b nonce : Nat) (msg : List Char) :
    memoDecode a (memoEncode a (pubOf b) nonce msg) = msg := by
  unfold memoDecode memoEncode
  by_cases h : pubOf a = pubOf b
  · simp only [if_pos h]
    rw [← h]
    exact symDecrypt_symEncrypt _ _ _
  · simp only [if_neg h]
    exact symDecrypt_symEncrypt _ _ _

/-! ## The payload codec (`src/utils/memo-crypto.ts`) -/

/-- The error taxonomy of `memo-crypto.ts`: `cryptoError` is the umbrella
base class `MemoCryptoError`; `invalidKey` / `missingKey` are the
subclasses `InvalidKeyError` / `MissingKeyError`. -/
inductive MemoErr where
  | cryptoError (msg : List Char)
  | invalidKey (msg : List Char)
  | missingKey (msg : List Char)
deriving DecidableEq

/-- Modelled from the spec: WIF key-string material as parsed by dhive
`PrivateKey.fromString` / `PublicKey.fromString`.  A key string is
well-formed when it is a nonempty decimal numeral; its value is the
private scalar (private keys) or the group element (public keys). -/
def parseKeyChars (s : List Char) : Option Nat :=
  if s ≠ [] ∧ s.all isDigitChar then some (charsToNat s) else none

/-- `encryptJSON(plain, fromPrivMemo, toPubMemo)`: the null-record check,
the two blank-key checks, serialization, the `#` sentinel, then
`Memo.encode`.  `plain = none` models a null/undefined record; `nonce` is
the per-call encryption randomness; key-parse failure maps to the
`InvalidKeyError` classification of the catch block. -/
def encryptJSON (plain : Option Json) (fromPrivMemo toPubMemo : List Char) (nonce : Nat) :
    Except MemoErr MemoCipher :=
  match plain with
  | none => .error (.cryptoError "Plain object cannot be null or undefined".data)
  | some p =>
    if isBlank fromPrivMemo then
      .error (.missingKey "From private memo key is required".data)
    else if isBlank toPubMemo then
      .error (.missingKey "To public memo key is required".data)
    else
      match parseKeyChars fromPrivMemo, parseKeyChars toPubMemo with
      | some priv, some toPub => .ok (memoEncode priv toPub nonce ('#' :: stringify p))
      | _, _ => .error (.invalidKey "Invalid key format".data)

/-- `decryptJSON(cipher, toPrivMemo)`: the blank-cipher and blank-key
checks, `Memo.decode`, the `#`-sentinel check, then `JSON.parse`.
`cipher = none` models an empty ciphertext string; the third TypeScript
parameter `fromPubMemo` is unused by decryption and omitted. -/
def decryptJSON (cipher : Option MemoCipher) (toPrivMemo : List Char) :
    Except MemoErr Json :=
  match cipher with
  | none => .error (.cryptoError "Cipher text cannot be empty".data)
  | some c =>
    if isBlank toPrivMemo then
      .error (.missingKey "To private memo key is required".data)
    else
      match parseKeyChars toPrivMemo with
      | none => .error (.invalidKey "Invalid key format".data)
      | some priv =>
        match memoDecode priv c with
        | '#' :: rest =>
          match parseJson rest with
          | some v => .ok v
          | none => .error (.cryptoError "Invalid JSON in decrypted message".data)
        | _ => .error (.cryptoError "Decrypted message missing required # prefix".data)

theorem isDigit_not_space {c : Char} (h : isDigitChar c = true) :
    isSpaceChar c = false := by
  simp only [isSpaceChar, Bool.or_eq_false_iff, decide_eq_false_iff_not]
  refine ⟨⟨⟨?_, ?_⟩, ?_⟩, ?_⟩ <;> (rintro rfl; revert h; decide)

theorem parseKeyChars_not_blank {s : List Char} {k : Nat}
    (h : parseKeyChars s = some k) : isBlank s = false := by
  unfold parseKeyChars at h
  split at h
  · rename_i hcond
    obtain ⟨hne, hdig⟩ := hcond
    cases s with
    | nil => exact absurd rfl hne
    | cons c t =>
      have hc : isDigitChar c = true := by
        have := List.all_eq_true.mp hdig c (by simp)
        simpa using this
      simp [isBlank, isDigit_not_space hc]
  · exact absurd h (by simp)

theorem parseKeyChars_natChars (n : Nat) : parseKeyChars (natChars n) = some n := by
  unfold parseKeyChars
  rw [if_pos ⟨natChars_ne_nil n, List.all_eq_true.mpr (fun c hc => by
    simpa using natChars_all_digits n c hc)⟩]
  rw [charsToNat_natChars]

/-- C1: for every record R and valid key pairs A and B, decrypting the
ciphertext produced by `encrypt(R, A.priv, B.pub)` with B's private key
returns R, decrypting it with A's private key also returns R, and
decryption of that ciphertext is deterministic. -/
theorem C1_codec_roundtrip (R : Json) (a b nonce : Nat)
    (privA pubA privB pubB : List Char)
    (hA1 : parseKeyChars privA = some a) (hA2 : parseKeyChars pubA = some (pubOf a))
    (hB1 : parseKeyChars privB = some b) (hB2 : parseKeyChars pubB = some (pubOf b))
    (c : MemoCipher)
    (henc : encryptJSON (some R) privA pubB nonce = .ok c) :
    decryptJSON (some c) privB = .ok R ∧ decryptJSON (some c) privA = .ok R ∧
      (∀ e1 e2 : Except MemoErr Json,
        decryptJSON (some c) privB = e1 → decryptJSON (some c) privB = e2 → e1 = e2) := by
  have hbA : isBlank privA = false := parseKeyChars_not_blank hA1
  have hbB : isBlank pubB = false := parseKeyChars_not_blank hB2
  have hbPB : isBlank privB = false := parseKeyChars_not_blank hB1
  simp only [encryptJSON, hbA, hbB, Bool.false_eq_true, if_false, hA1, hB2,
    Except.ok.injEq] at henc
  refine ⟨?_, ?_, fun e1 e2 h1 h2 => h1 ▸ h2⟩
  · simp only [decryptJSON, hbPB, Bool.false_eq_true, if_false, hB1, ← henc,
      memoDecode_recipient]
    simp [parseJson_stringify]
  · simp only [decryptJSON, hbA, Bool.false_eq_true, if_false, hA1, ← henc,
      memoDecode_sender]
    simp [parseJson_stringify]

/-- Witness for C1 at a concrete record and key pair. -/
theorem C1_codec_roundtrip_witness :
    decryptJSON
        (some (memoEncode 3 (pubOf 5) 1 ('#' :: stringify (Json.obj [(['a'], Json.null)]))))
        ['5'] =
      .ok (Json.obj [(['a'], Json.null)]) :=
  (C1_codec_roundtrip (Json.obj [(['a'], Json.null)]) 3 5 1
    ['3'] (natChars (pubOf 3)) ['5'] (natChars (pubOf 5))
    rfl (parseKeyChars_natChars _) rfl (parseKeyChars_natChars _) _ rfl).1

/-- C9 counterexample: encrypting a null record fails with the *umbrella*
`MemoCryptoError` (constructor `cryptoError`), not a malformed-record
error distinct from it — refuting the distinctness part of the claim. -/
theorem C9_counterexample :
    encryptJSON none ['5'] ['7'] 0 =
      .error (.cryptoError "Plain object cannot be null or undefined".data) := rfl

/-- C9 (amended): a blank `fromPrivMemo` or `toPubMemo` fails with a
missing-key error (the null-record check firing first), while a null
record fails with the umbrella `MemoCryptoError`, not a distinct
malformed-record error. -/
theorem C9_amended (P : Json) (k1 k2 : List Char) (nonce : Nat) :
    (isBlank k1 = true →
      encryptJSON (some P) k1 k2 nonce =
        .error (.missingKey "From private memo key is required".data)) ∧
    (isBlank k1 = false → isBlank k2 = true →
      encryptJSON (some P) k1 k2 nonce =
        .error (.missingKey "To public memo key is required".data)) ∧
    encryptJSON none k1 k2 nonce =
      .error (.cryptoError "Plain object cannot be null or undefined".data) := by
  refine ⟨fun h1 => ?_, fun h1 h2 => ?_, rfl⟩
  · simp [encryptJSON, h1]
  · simp [encryptJSON, h1, h2]

/-- Witness for C9 (amended) at concrete blank keys. -/
theorem C9_amended_witness :
    encryptJSON (some Json.null) [' '] ['5'] 0 =
        .error (.missingKey "From private memo key is required".data) ∧
      encryptJSON (some Json.null) ['5'] [] 0 =
        .error (.missingKey "To public memo key is required".data) :=
  ⟨(C9_amended Json.null [' '] ['5'] 0).1 rfl,
    (C9_amended Json.null ['5'] [] 0).2.1 rfl rfl⟩

/-! ## JavaScript-number arithmetic (`none` = NaN)

Finite JavaScript numbers are modelled as exact rationals.  Mathlib's `ℚ`
does not reduce inside the kernel, so amounts are carried as unreduced
fractions (`Amt`) with kernel-computable operations, together with an
interpretation `Amt.toQ` into `ℚ` and lemmas showing every operation
agrees with real rational arithmetic.  Equality of amounts (JavaScript
`===`) is value equivalence `Amt.eqv`, never structural equality. -/

/-- An exact amount `num / (dpred + 1)` (denominator kept positive by
construction). -/
structure Amt where
  num : Int
  dpred : Nat
deriving DecidableEq

/-- The (positive) denominator. -/
def Amt.den (a : Amt) : Nat := a.dpred + 1

/-- The rational value of an amount. -/
def Amt.toQ (a : Amt) : ℚ := (a.num : ℚ) / (a.den : ℚ)

/-- The amount `n / d` (callers pass `d ≥ 1`). -/
def amt (n : Int) (d : Nat) : Amt := ⟨n, d - 1⟩

/-- Exact addition of fractions. -/
def Amt.add (a b : Amt) : Amt := ⟨a.num * b.den + b.num * a.den, a.den * b.den - 1⟩

/-- Exact subtraction of fractions. -/
def Amt.sub (a b : Amt) : Amt := ⟨a.num * b.den - b.num * a.den, a.den * b.den - 1⟩

/-- Value comparison `a ≤ b` by cross multiplication. -/
def Amt.le (a b : Amt) : Bool := decide (a.num * b.den ≤ b.num * a.den)

/-- Value comparison `0 < a`. -/
def Amt.pos (a : Amt) : Bool := decide (0 < a.num)

/-- Value equality (JavaScript `===` on finite numbers). -/
def Amt.eqv (a b : Amt) : Bool := decide (a.num * b.den = b.num * a.den)

theorem Amt.den_cast_pos (a : Amt) : (0 : ℚ) < (a.den : ℚ) := by
  have : 0 < a.den := Nat.succ_pos _
  exact_mod_cast this

theorem Amt.den_amt_mul (a b : Amt) : (Amt.mk (a.num * b.den + b.num * a.den)
    (a.den * b.den - 1)).den = a.den * b.den := by
  show a.den * b.den - 1 + 1 = a.den * b.den
  have h1 : 0 < a.den := Nat.succ_pos _
  have h2 : 0 < b.den := Nat.succ_pos _
  have : 0 < a.den * b.den := Nat.mul_pos h1 h2
  omega

theorem Amt.toQ_add (a b : Amt) : (a.add b).toQ = a.toQ + b.toQ := by
  unfold Amt.toQ Amt.add
  rw [Amt.den_amt_mul a b]
  have ha := Amt.den_cast_pos a
  have hb := Amt.den_cast_pos b
  field_simp

theorem Amt.toQ_sub (a b : Amt) : (a.sub b).toQ = a.toQ - b.toQ := by
  unfold Amt.toQ Amt.sub
  have hden : (Amt.mk (a.num * b.den - b.num * a.den) (a.den * b.den - 1)).den =
      a.den * b.den := Amt.den_amt_mul a b
  rw [hden]
  have ha := Amt.den_cast_pos a
  have hb := Amt.den_cast_pos b
  field_simp
  push_cast
  ring

theorem Amt.le_iff (a b : Amt) : a.le b = true ↔ a.toQ ≤ b.toQ := by
  unfold Amt.le Amt.toQ
  rw [decide_eq_true_eq, div_le_div_iff (Amt.den_cast_pos a) (Amt.den_cast_pos b)]
  constructor
  · intro h; exact_mod_cast h
  · intro h; exact_mod_cast h

theorem Amt.pos_iff (a : Amt) : a.pos = true ↔ 0 < a.toQ := by
  unfold Amt.pos Amt.toQ
  rw [decide_eq_true_eq, lt_div_iff (Amt.den_cast_pos a)]
  constructor
  · intro h; simpa using (by exact_mod_cast h : (0 : ℚ) < (a.num : ℚ))
  · intro h; simp at h; exact_mod_cast h

theorem Amt.eqv_iff (a b : Amt) : a.eqv b = true ↔ a.toQ = b.toQ := by
  unfold Amt.eqv Amt.toQ
  rw [decide_eq_true_eq, div_eq_div_iff (ne_of_gt (Amt.den_cast_pos a))
    (ne_of_gt (Amt.den_cast_pos b))]
  constructor
  · intro h; exact_mod_cast h
  · intro h; exact_mod_cast h

/-- Addition; NaN is absorbing. -/
def jadd : Option Amt → Option Amt → Option Amt
  | some a, some b => some (a.add b)
  | _, _ => none

/-- `x >= y`; any comparison with NaN is false. -/
def jge : Option Amt → Option Amt → Bool
  | some a, some b => b.le a
  | _, _ => false

/-- `x > 0`; false for NaN. -/
def jgt0 : Option Amt → Bool
  | some a => a.pos
  | none => false

/-- `x - q` for a constant `q`. -/
def jsub (a : Option Amt) (q : Amt) : Option Amt := a.map (fun x => x.sub q)

/-- `x === q` for a constant `q`; false for NaN. -/
def jeq : Option Amt → Amt → Bool
  | some a, q => a.eqv q
  | none, _ => false

/-- Model of the JavaScript `parseFloat` on ledger amount strings
(`digits[.digits]`): `none` models NaN for anything not starting with a
digit. -/
def parseFloatQ (s : List Char) : Option Amt :=
  let intPart := s.takeWhile isDigitChar
  if intPart = [] then none
  else
    match s.dropWhile isDigitChar with
    | '.' :: fr =>
      let frac := fr.takeWhile isDigitChar
      some (amt (charsToNat intPart * 10 ^ frac.length + charsToNat frac) (10 ^ frac.length))
    | _ => some (amt (charsToNat intPart) 1)

/-! ## Record store state (`src/unnamed/part_010` schema)

The payments table of `Database.initialize` declares
`id INTEGER PRIMARY KEY AUTOINCREMENT, invoice_id, from_account, amount,
currency, block_number, transaction_id, created_at` — and **no** UNIQUE
constraint beyond the autoincrement primary key (which is omitted here as
it constrains nothing).  JavaScript numbers are `Option Amt` with `none`
playing NaN; timestamps are an abstract clock `Nat`. -/

/-- Invoice status; the TypeScript string 'partial' is spelled
`partiallyPaid` here (it is a reserved word in Lean). -/
inductive Status where
  | pending
  | partiallyPaid
  | paid
deriving DecidableEq

/-- The parsed `hive_conversion_data` JSON snapshot (`hiveAmount`,
`hbdAmount`); a missing field reads as `undefined`, i.e. `none`. -/
structure Conv where
  hiveAmount : Option Amt
  hbdAmount : Option Amt
deriving DecidableEq

/-- One row of the `invoices` table (the columns the monitor touches). -/
structure InvoiceRow where
  id : List Char
  invoice_number : List Char
  status : Status
  total : Option Amt
  hive_conversion_data : Option Conv
  updated_at : Nat
deriving DecidableEq

/-- One row of the `payments` table. -/
structure PaymentRow where
  invoice_id : List Char
  from_account : List Char
  amount : Option Amt
  currency : List Char
  block_number : Nat
  transaction_id : List Char
  created_at : Nat
deriving DecidableEq

/-- The record-store cache state seen by the monitor. -/
structure DbState where
  invoices : List InvoiceRow
  payments : List PaymentRow
deriving DecidableEq

/-- `SELECT ... FROM invoices WHERE invoice_number = ?` (first match). -/
def dbGetInvoiceByNumber (st : DbState) (num : List Char) : Option InvoiceRow :=
  st.invoices.find? (fun r => decide (r.invoice_number = num))

/-- `SELECT id FROM payments WHERE transaction_id = ? AND invoice_id = ?`. -/
def dbGetPayment (st : DbState) (txId invId : List Char) : Option PaymentRow :=
  st.payments.find? (fun p => decide (p.transaction_id = txId) && decide (p.invoice_id = invId))

/-- `INSERT INTO payments ...` — the part_010 schema has no uniqueness
constraint on (transaction_id, invoice_id), so insertion always appends. -/
def dbInsertPayment (st : DbState) (row : PaymentRow) : DbState :=
  { st with payments := st.payments ++ [row] }

/-- `UPDATE invoices SET status = ?, updated_at = ? WHERE id = ?`. -/
def dbUpdateInvoiceStatus (st : DbState) (invId : List Char) (newStatus : Status)
    (now : Nat) : DbState :=
  { st with invoices := st.invoices.map (fun r =>
      if r.id = invId then { r with status := newStatus, updated_at := now } else r) }

/-- `transfer.amount.split(' ')` destructured as `[amountStr, currency]`;
the currency is `none` (JS `undefined`) when there is no space. -/
def splitAmount (s : List Char) : List Char × Option (List Char) :=
  let a := s.takeWhile (fun c => c != ' ')
  match s.dropWhile (fun c => c != ' ') with
  | ' ' :: t => (a, some (t.takeWhile (fun c => c != ' ')))
  | _ => (a, none)

/-! ## Memo parsing (`extractInvoiceNumber`, part_014 lines 230–246)

The three JavaScript regexes are
`/Invoice\s+([A-Z]+-\d+)/i`, `/([A-Z]+-\d+)/` (no `i` flag!), and
`/invoice:\s*([A-Z]+-\d+)/i`, tried in that order, first match winning.
For these patterns the character classes at adjacent positions are
disjoint, so greedy matching without backtracking is exact; a regex search
tries successive start positions left to right. -/

/-- Case-insensitive literal keyword match (the `i` flag on a literal). -/
def matchKeyword : List Char → List Char → Option (List Char)
  | [], s => some s
  | k :: kt, c :: s => if lowerChar c = lowerChar k then matchKeyword kt s else none
  | _ :: _, [] => none

/-- The capture group `([A-Z]+-\d+)` anchored at the start of `s`; `ci`
selects the case-insensitive letter class. -/
def matchCodeAt (ci : Bool) (s : List Char) : Option (List Char) :=
  let letterOk := if ci then isAlphaChar else isUpperChar
  let ls := s.takeWhile letterOk
  if ls = [] then none
  else
    match s.dropWhile letterOk with
    | '-' :: r2 =>
      let ds := r2.takeWhile isDigitChar
      if ds = [] then none else some (ls ++ '-' :: ds)
    | _ => none

/-- `/Invoice\s+([A-Z]+-\d+)/i` anchored at the start of `s`. -/
def p1At (s : List Char) : Option (List Char) :=
  (matchKeyword "invoice".data s).bind fun r1 =>
    if r1.takeWhile isSpaceChar = [] then none
    else matchCodeAt true (r1.dropWhile isSpaceChar)

/-- `/([A-Z]+-\d+)/` (case-sensitive) anchored at the start of `s`. -/
def p2At (s : List Char) : Option (List Char) :=
  matchCodeAt false s

/-- `/invoice:\s*([A-Z]+-\d+)/i` anchored at the start of `s`. -/
def p3At (s : List Char) : Option (List Char) :=
  (matchKeyword "invoice:".data s).bind fun r1 =>
    matchCodeAt true (r1.dropWhile isSpaceChar)

/-- Leftmost match: try the anchored matcher at each start position. -/
def regexSearch (f : List Char → Option (List Char)) : List Char → Option (List Char)
  | [] => f []
  | s@(_ :: t) =>
    match f s with
    | some r => some r
    | none => regexSearch f t

/-- `extractInvoiceNumber(memo)`: ordered patterns, first match wins. -/
def extractInvoiceNumber (memo : List Char) : Option (List Char) :=
  match regexSearch p1At memo with
  | some m => some m
  | none =>
    match regexSearch p2At memo with
    | some m => some m
    | none => regexSearch p3At memo

/-! ## Transfer processing and the status state machine (part_014) -/

/-- An incoming `transfer` operation (`from`, `to`, `amount`, `memo`);
`from` is spelled `fromAcct` because `from` is reserved in Lean. -/
structure HiveTransfer where
  fromAcct : List Char
  toAcct : List Char
  amount : List Char
  memo : List Char
deriving DecidableEq

/-- External ledger interaction of `updateInvoiceStatus`:
`statusRecords id` models `fetchInvoiceStatusUpdates` (`none` = the call
threw, `some n` = it returned `n` records).  The success or failure of
`recordInvoiceStatusUpdate` is not modelled because both the success path
and the catch-fallback run the same cache UPDATE. -/
structure LedgerEnv where
  statusRecords : List Char → Option Nat

/-- The fixed tolerance of the fully-paid check (part_014 line 295). -/
def tolerance : Amt := amt 1 1000

/-- The fixed notification-ping amount, 0.001 HIVE. -/
def notificationAmount : Amt := amt 1 1000

/-- Sum of the amounts of the given payments in one currency
(`totalPaidHive` / `totalPaidHbd` accumulation loop). -/
def totalPaid (pays : List PaymentRow) (cur : List Char) : Option Amt :=
  (pays.filter (fun p => decide (p.currency = cur))).foldl (fun acc p => jadd acc p.amount)
    (some (amt 0 1))

/-- Cumulative paid amount for an invoice in one currency, recomputed from
all recorded Payment rows. -/
def totalsFor (st : DbState) (invId cur : List Char) : Option Amt :=
  totalPaid (st.payments.filter (fun p => decide (p.invoice_id = invId))) cur

/-- The status determination of `updateInvoiceStatus` (part_014 lines
291–306): paid when either unit's total is within tolerance of its
expected amount (`>=` against `expected - tolerance`), else partial when
any payment exists, else pending. -/
def determineNewStatus (totalPaidHive totalPaidHbd expectedHive expectedHbd : Option Amt) :
    Status :=
  let hiveFullyPaid := jge totalPaidHive (jsub expectedHive tolerance)
  let hbdFullyPaid := jge totalPaidHbd (jsub expectedHbd tolerance)
  let anyPaymentMade := jgt0 totalPaidHive || jgt0 totalPaidHbd
  if hiveFullyPaid || hbdFullyPaid then .paid
  else if anyPaymentMade then .partiallyPaid
  else .pending

/-- `updateInvoiceStatus(invoice)` (part_014 lines 248–378): recompute the
totals from all Payment rows, determine the new status, and write it when
it changed or when a blockchain re-sync is needed; absent conversion data
aborts.  The ledger append happens before the cache UPDATE but its failure
falls back to the very same UPDATE, so the database outcome is identical
either way. -/
def updateInvoiceStatus (env : LedgerEnv) (now : Nat) (invoice : InvoiceRow)
    (st : DbState) : DbState :=
  let totalPaidHive := totalsFor st invoice.id "HIVE".data
  let totalPaidHbd := totalsFor st invoice.id "HBD".data
  match invoice.hive_conversion_data with
  | none => st
  | some conv =>
    let newStatus := determineNewStatus totalPaidHive totalPaidHbd
      conv.hiveAmount conv.hbdAmount
    let needsSync := (invoice.status = Status.paid ∨ invoice.status = Status.partiallyPaid) ∧
      newStatus = invoice.status ∧ env.statusRecords invoice.id = some 0
    if newStatus ≠ invoice.status ∨ needsSync then
      dbUpdateInvoiceStatus st invoice.id newStatus now
    else st

/-- `processTransfer(transfer, txId, blockNum)` (part_014 lines 142–228):
currency gate, memo parse, notification filters, invoice lookup,
duplicate-payment check, insert, then status update. -/
def processTransfer (env : LedgerEnv) (now : Nat) (transfer : HiveTransfer)
    (txId : List Char) (blockNum : Nat) (st : DbState) : DbState :=
  let amountStr := (splitAmount transfer.amount).1
  let currencyOpt := (splitAmount transfer.amount).2
  let amount := parseFloatQ amountStr
  match currencyOpt with
  | none => st
  | some currency =>
    if ¬(currency = "HIVE".data ∨ currency = "HBD".data) then st
    else
      match extractInvoiceNumber transfer.memo with
      | none => st
      | some invoiceNumber =>
        let isNotificationMemo := strContains transfer.memo "Invoice".data &&
          (strContains transfer.memo "http://".data ||
            strContains transfer.memo "https://".data)
        if jeq amount notificationAmount = true ∧ currency = "HIVE".data ∧
            isNotificationMemo = true then st
        else
          match dbGetInvoiceByNumber st invoiceNumber with
          | none => st
          | some invoice =>
            if transfer.fromAcct = transfer.toAcct ∧ jeq amount notificationAmount = true ∧
                currency = "HIVE".data ∧ isNotificationMemo = true then st
            else
              match dbGetPayment st txId invoice.id with
              | some _ => st
              | none =>
                let st1 := dbInsertPayment st
                  { invoice_id := invoice.id, from_account := transfer.fromAcct,
                    amount := amount, currency := currency, block_number := blockNum,
                    transaction_id := txId, created_at := now }
                updateInvoiceStatus env now invoice st1

/-! ## Claims about transfer processing and the state machine -/

/-- C10: processing a transfer whose amount is denominated in a currency
other than HIVE or HBD is a complete no-op on the record store, regardless
of the memo content. -/
theorem C10_foreign_currency_noop (env : LedgerEnv) (now : Nat) (t : HiveTransfer)
    (txId : List Char) (blockNum : Nat) (st : DbState) (cur : List Char)
    (hcur : (splitAmount t.amount).2 = some cur)
    (h1 : cur ≠ "HIVE".data) (h2 : cur ≠ "HBD".data) :
    processTransfer env now t txId blockNum st = st := by
  unfold processTransfer
  rw [hcur]
  simp [h1, h2]

/-- Witness for C10 on a concrete USD-denominated transfer. -/
theorem C10_foreign_currency_noop_witness :
    processTransfer ⟨fun _ => none⟩ 0
        ⟨"alice".data, "op".data, "5.00 USD".data, "Payment for Invoice INV-1".data⟩
        "tx".data 1 ⟨[], []⟩ =
      ⟨[], []⟩ :=
  C10_foreign_currency_noop _ 0 _ _ 1 _ "USD".data rfl (by decide) (by decide)

/-- The cached invoice `INV-1` used by the concrete monitor scenarios:
expects 10 HIVE or 5 HBD. -/
def invINV1 : InvoiceRow :=
  { id := "inv-id-1".data, invoice_number := "INV-1".data, status := .pending,
    total := some (amt 10 1), hive_conversion_data := some ⟨some (amt 10 1), some (amt 5 1)⟩,
    updated_at := 0 }

/-- A ledger environment whose chain already carries status records. -/
def envSynced : LedgerEnv := ⟨fun _ => some 1⟩

/-- Cache holding `INV-1` and no payments yet. -/
def stateINV1 : DbState := { invoices := [invINV1], payments := [] }

/-- C5 counterexample: a self-transfer of the fixed minimal amount
(0.001 HIVE) whose memo references the real invoice number `INV-1` via the
accepted convention `invoice: INV-1` and carries a URL is still recorded —
one Payment row, not zero — because the notification filter looks for the
case-sensitive substring `"Invoice"`, which this memo lacks. -/
theorem C5_counterexample :
    ((processTransfer envSynced 1
        ⟨"op".data, "op".data, "0.001 HIVE".data,
          "invoice: INV-1 https://pay.example".data⟩
        "tx1".data 5 stateINV1).payments).length = 1 := by decide

/-- C5 (amended): a transfer of 0.001 HIVE whose memo contains the literal
substring `Invoice` (capital `I`) and an `http://` or `https://` URL marker
is never recorded: processing it leaves the record store unchanged. -/
theorem C5_amended (env : LedgerEnv) (now : Nat) (t : HiveTransfer) (txId : List Char)
    (blockNum : Nat) (st : DbState)
    (hamt : jeq (parseFloatQ (splitAmount t.amount).1) notificationAmount = true)
    (hcur : (splitAmount t.amount).2 = some "HIVE".data)
    (hmemo : strContains t.memo "Invoice".data = true)
    (hurl : (strContains t.memo "http://".data || strContains t.memo "https://".data) = true) :
    processTransfer env now t txId blockNum st = st := by
  unfold processTransfer
  rw [hcur]
  cases hext : extractInvoiceNumber t.memo with
  | none => simp [hext]
  | some num => simp [hext, hamt, hmemo, hurl]

/-- Witness for C5 (amended) on a concrete notification ping. -/
theorem C5_amended_witness :
    processTransfer envSynced 1
        ⟨"op".data, "op".data, "0.001 HIVE".data,
          "Invoice INV-1 from @op https://pay.example/i/1".data⟩
        "tx2".data 6 stateINV1 =
      stateINV1 :=
  C5_amended envSynced 1 _ "tx2".data 6 stateINV1 (by decide) rfl (by decide) (by decide)

/-! ## Claims about the status state machine -/

theorem find?_update_status (l : List InvoiceRow) (invId : List Char) (ns : Status)
    (now : Nat) :
    ((l.map (fun r => if r.id = invId then { r with status := ns, updated_at := now }
        else r)).find? (fun r => decide (r.id = invId))).map (fun r => r.status) =
      (l.find? (fun r => decide (r.id = invId))).map (fun _ => ns) := by
  induction l with
  | nil => rfl
  | cons r t ih =>
    simp only [List.map_cons]
    by_cases h : r.id = invId
    · rw [if_pos h]
      rw [List.find?_cons_of_pos _ (by simpa using h),
        List.find?_cons_of_pos _ (by simpa using h)]
      rfl
    · rw [if_neg h]
      rw [List.find?_cons_of_neg _ (by simpa using h),
        List.find?_cons_of_neg _ (by simpa using h)]
      exact ih

/-- The status (of the first row) an invoice id has in the cache. -/
def rowStatus (st : DbState) (invId : List Char) : Option Status :=
  (st.invoices.find? (fun r => decide (r.id = invId))).map (fun r => r.status)

/-- A recorded payment of exactly 9.999 HIVE (= expected − tolerance) for
`INV-1`. -/
def boundaryPayment : PaymentRow :=
  { invoice_id := "inv-id-1".data, from_account := "client".data,
    amount := some (amt 9999 1000), currency := "HIVE".data, block_number := 4,
    transaction_id := "tx9".data, created_at := 0 }

/-- The cache state of the boundary scenario: `INV-1` plus the 9.999 HIVE
payment. -/
def boundaryState : DbState := { invoices := [invINV1], payments := [boundaryPayment] }

/-- C2 counterexample: invoice `INV-1` expects 10 HIVE; with a cumulative
recorded total of exactly `10 − 0.001 = 9.999` HIVE the status-update
computation marks it **paid** (the threshold comparison is `>=`, i.e.
inclusive), contradicting the claim that `expected − epsilon` does not
mark it paid. -/
theorem C2_counterexample :
    ((updateInvoiceStatus envSynced 1 invINV1
        boundaryState).invoices.map
      (fun r => r.status)) = [Status.paid] := by decide

/-- C2 (amended): the invoice counts as fully paid exactly when the
cumulative total in the native unit or in the stable unit is within
epsilon of its expected amount *inclusively* (`total ≥ expected − ε`, an
or-condition across the two units; a total of exactly `expected − ε` is
already paid, and `expected − ε/2` a fortiori); `ε = 1/1000`; and after the
status-update computation runs, the invoice's cached status equals this
determination recomputed from all recorded payments. -/
theorem C2_amended :
    (∀ th tb eh eb : Amt,
      (determineNewStatus (some th) (some tb) (some eh) (some eb) = Status.paid ↔
        (eh.toQ - tolerance.toQ ≤ th.toQ ∨ eb.toQ - tolerance.toQ ≤ tb.toQ))) ∧
    tolerance.toQ = 1 / 1000 ∧
    (∀ env now inv st conv,
      inv.hive_conversion_data = some conv →
      st.invoices.find? (fun r => decide (r.id = inv.id)) = some inv →
      rowStatus (updateInvoiceStatus env now inv st) inv.id =
        some (determineNewStatus (totalsFor st inv.id "HIVE".data)
          (totalsFor st inv.id "HBD".data) conv.hiveAmount conv.hbdAmount)) := by
  refine ⟨?_, ?_, ?_⟩
  · intro th tb eh eb
    unfold determineNewStatus
    constructor
    · intro hp
      by_cases h : (jge (some th) (jsub (some eh) tolerance) ||
          jge (some tb) (jsub (some eb) tolerance)) = true
      · rw [Bool.or_eq_true] at h
        rcases h with h1 | h1
        · left
          have h2 := (Amt.le_iff (eh.sub tolerance) th).mp h1
          rw [Amt.toQ_sub] at h2
          exact h2
        · right
          have h2 := (Amt.le_iff (eb.sub tolerance) tb).mp h1
          rw [Amt.toQ_sub] at h2
          exact h2
      · exfalso
        rw [Bool.not_eq_true] at h
        simp only [h, Bool.false_eq_true, if_false] at hp
        split at hp <;> exact Status.noConfusion hp
    · intro hor
      have h : (jge (some th) (jsub (some eh) tolerance) ||
          jge (some tb) (jsub (some eb) tolerance)) = true := by
        rcases hor with h1 | h1
        · have h2 : (eh.sub tolerance).toQ ≤ th.toQ := by rw [Amt.toQ_sub]; exact h1
          have h3 := (Amt.le_iff (eh.sub tolerance) th).mpr h2
          simp [jge, jsub, h3]
        · have h2 : (eb.sub tolerance).toQ ≤ tb.toQ := by rw [Amt.toQ_sub]; exact h1
          have h3 := (Amt.le_iff (eb.sub tolerance) tb).mpr h2
          simp [jge, jsub, h3]
      simp [h]
  · show (amt 1 1000).toQ = 1 / 1000
    unfold Amt.toQ amt Amt.den
    norm_num
  · intro env now inv st conv hconv hfind
    unfold updateInvoiceStatus
    rw [hconv]
    dsimp only
    split
    · rename_i hwrite
      first
      | (unfold rowStatus dbUpdateInvoiceStatus
         rw [find?_update_status, hfind]
         rfl)
      | (push_neg at hwrite
         unfold rowStatus
         rw [hfind]
         exact congrArg some hwrite.1.symm)
    · rename_i hwrite
      first
      | (unfold rowStatus dbUpdateInvoiceStatus
         rw [find?_update_status, hfind]
         rfl)
      | (push_neg at hwrite
         unfold rowStatus
         rw [hfind]
         exact congrArg some hwrite.1.symm)

/-! ## Claim C3: idempotent payment recording -/

/-- Number of Payment rows carrying a given
(transaction id, invoice id) pair. -/
def pairCount (st : DbState) (txId invId : List Char) : Nat :=
  (st.payments.filter (fun p => decide (p.transaction_id = txId) &&
    decide (p.invoice_id = invId))).length

theorem updateStatus_payments (env : LedgerEnv) (now : Nat) (inv : InvoiceRow)
    (st : DbState) : (updateInvoiceStatus env now inv st).payments = st.payments := by
  unfold updateInvoiceStatus
  dsimp only
  split
  · rfl
  · split <;> rfl

theorem find?_map_of_pred (f : InvoiceRow → InvoiceRow) (p : InvoiceRow → Bool)
    (l : List InvoiceRow) (h : ∀ r, p (f r) = p r) :
    (l.map f).find? p = (l.find? p).map f := by
  induction l with
  | nil => rfl
  | cons r t ih =>
    by_cases hr : p r = true
    · rw [List.map_cons, List.find?_cons_of_pos _ ((h r).trans hr),
        List.find?_cons_of_pos _ hr]
      rfl
    · rw [Bool.not_eq_true] at hr
      rw [List.map_cons, List.find?_cons_of_neg _ (by simp [h r, hr]),
        List.find?_cons_of_neg _ (by simp [hr]), ih]

theorem getInvoice_dbUpdate (st : DbState) (invId : List Char) (ns : Status) (now : Nat)
    (num : List Char) :
    dbGetInvoiceByNumber (dbUpdateInvoiceStatus st invId ns now) num =
      (dbGetInvoiceByNumber st num).map
        (fun r => if r.id = invId then { r with status := ns, updated_at := now }
          else r) := by
  unfold dbGetInvoiceByNumber dbUpdateInvoiceStatus
  dsimp only
  exact find?_map_of_pred _ _ _ (fun r0 => by by_cases hid : r0.id = invId <;> simp [hid])

theorem getInvoice_updateStatus (env : LedgerEnv) (now : Nat) (inv : InvoiceRow)
    (st : DbState) (num : List Char) (r : InvoiceRow)
    (h : dbGetInvoiceByNumber st num = some r) :
    ∃ r2, dbGetInvoiceByNumber (updateInvoiceStatus env now inv st) num = some r2 ∧
      r2.id = r.id := by
  unfold updateInvoiceStatus
  dsimp only
  split
  · exact ⟨r, h, rfl⟩
  · split
    · rw [getInvoice_dbUpdate, h]
      refine ⟨_, rfl, ?_⟩
      by_cases hid : r.id = inv.id <;> simp [hid]
    · exact ⟨r, h, rfl⟩

theorem find?_append_none {α} (p : α → Bool) (l1 l2 : List α)
    (h : l1.find? p = none) : (l1 ++ l2).find? p = l2.find? p := by
  induction l1 with
  | nil => rfl
  | cons a t ih =>
    rw [List.find?_cons] at h
    cases ha : p a with
    | false =>
      rw [List.cons_append, List.find?_cons_of_neg _ (by simp [ha])]
      rw [ha] at h
      exact ih h
    | true =>
      rw [ha] at h
      simp at h

theorem getPayment_insert (st : DbState) (row : PaymentRow)
    (hnone : dbGetPayment st row.transaction_id row.invoice_id = none) :
    dbGetPayment (dbInsertPayment st row) row.transaction_id row.invoice_id = some row := by
  unfold dbGetPayment dbInsertPayment at *
  dsimp only
  rw [find?_append_none _ _ _ hnone]
  simp [List.find?_cons]

theorem getInvoice_insert (st : DbState) (row : PaymentRow) (num : List Char) :
    dbGetInvoiceByNumber (dbInsertPayment st row) num = dbGetInvoiceByNumber st num := rfl

theorem getPayment_congr {st st2 : DbState} (h : st.payments = st2.payments)
    (txId invId : List Char) : dbGetPayment st txId invId = dbGetPayment st2 txId invId := by
  unfold dbGetPayment
  rw [h]

theorem pairCount_congr {st st2 : DbState} (h : st.payments = st2.payments)
    (txId invId : List Char) : pairCount st txId invId = pairCount st2 txId invId := by
  unfold pairCount
  rw [h]

/-- Either `processTransfer` is a no-op, or every guard passed and it
inserted the payment row and ran the status update. -/
theorem processTransfer_cases (env : LedgerEnv) (now : Nat) (t : HiveTransfer)
    (txId : List Char) (blockNum : Nat) (st : DbState) :
    processTransfer env now t txId blockNum st = st ∨
    ∃ currency invoiceNumber invoice,
      (splitAmount t.amount).2 = some currency ∧
      (currency = "HIVE".data ∨ currency = "HBD".data) ∧
      extractInvoiceNumber t.memo = some invoiceNumber ∧
      ¬(jeq (parseFloatQ (splitAmount t.amount).1) notificationAmount = true ∧
        currency = "HIVE".data ∧
        (strContains t.memo "Invoice".data &&
          (strContains t.memo "http://".data ||
            strContains t.memo "https://".data)) = true) ∧
      dbGetInvoiceByNumber st invoiceNumber = some invoice ∧
      ¬(t.fromAcct = t.toAcct ∧
        jeq (parseFloatQ (splitAmount t.amount).1) notificationAmount = true ∧
        currency = "HIVE".data ∧
        (strContains t.memo "Invoice".data &&
          (strContains t.memo "http://".data ||
            strContains t.memo "https://".data)) = true) ∧
      dbGetPayment st txId invoice.id = none ∧
      processTransfer env now t txId blockNum st =
        updateInvoiceStatus env now invoice (dbInsertPayment st
          { invoice_id := invoice.id, from_account := t.fromAcct,
            amount := parseFloatQ (splitAmount t.amount).1, currency := currency,
            block_number := blockNum, transaction_id := txId, created_at := now }) := by
  unfold processTransfer
  dsimp only
  cases hcur : (splitAmount t.amount).2 with
  | none => exact .inl rfl
  | some currency =>
    dsimp only
    split
    · exact .inl rfl
    · rename_i hcv
      rw [not_not] at hcv
      cases hext : extractInvoiceNumber t.memo with
      | none => exact .inl rfl
      | some invoiceNumber =>
        dsimp only
        split
        · exact .inl rfl
        · rename_i hnotif
          cases hinv : dbGetInvoiceByNumber st invoiceNumber with
          | none => exact .inl rfl
          | some invoice =>
            dsimp only
            split
            · exact .inl rfl
            · rename_i hself
              cases hpay : dbGetPayment st txId invoice.id with
              | some p => exact .inl rfl
              | none =>
                exact .inr ⟨currency, invoiceNumber, invoice, rfl, hcv, rfl, hnotif,
                  hinv, hself, hpay, rfl⟩

/-- When every guard passes and the pair is unseen, `processTransfer`
inserts the payment row and runs the status update.  (All guards are
functions of the transfer, the transaction id and the state only — never
of `env`, `now` or the block number.) -/
theorem processTransfer_insert (env : LedgerEnv) (now : Nat) (t : HiveTransfer)
    (txId : List Char) (blockNum : Nat) (st : DbState)
    (currency num : List Char) (invoice : InvoiceRow)
    (hcur : (splitAmount t.amount).2 = some currency)
    (hcv : currency = "HIVE".data ∨ currency = "HBD".data)
    (hext : extractInvoiceNumber t.memo = some num)
    (hnotif : ¬(jeq (parseFloatQ (splitAmount t.amount).1) notificationAmount = true ∧
      currency = "HIVE".data ∧
      (strContains t.memo "Invoice".data &&
        (strContains t.memo "http://".data ||
          strContains t.memo "https://".data)) = true))
    (hinv : dbGetInvoiceByNumber st num = some invoice)
    (hself : ¬(t.fromAcct = t.toAcct ∧
      jeq (parseFloatQ (splitAmount t.amount).1) notificationAmount = true ∧
      currency = "HIVE".data ∧
      (strContains t.memo "Invoice".data &&
        (strContains t.memo "http://".data ||
          strContains t.memo "https://".data)) = true))
    (hpay : dbGetPayment st txId invoice.id = none) :
    processTransfer env now t txId blockNum st =
      updateInvoiceStatus env now invoice (dbInsertPayment st
        { invoice_id := invoice.id, from_account := t.fromAcct,
          amount := parseFloatQ (splitAmount t.amount).1, currency := currency,
          block_number := blockNum, transaction_id := txId, created_at := now }) := by
  unfold processTransfer
  dsimp only
  rw [hcur]
  dsimp only
  rw [if_neg (not_not_intro hcv), hext]
  dsimp only
  rw [if_neg hnotif, hinv]
  dsimp only
  rw [if_neg hself, hpay]

/-- When every guard passes but the pair is already recorded,
`processTransfer` is a no-op. -/
theorem processTransfer_dup (env : LedgerEnv) (now : Nat) (t : HiveTransfer)
    (txId : List Char) (blockNum : Nat) (st : DbState)
    (currency num : List Char) (invoice : InvoiceRow) (p : PaymentRow)
    (hcur : (splitAmount t.amount).2 = some currency)
    (hcv : currency = "HIVE".data ∨ currency = "HBD".data)
    (hext : extractInvoiceNumber t.memo = some num)
    (hnotif : ¬(jeq (parseFloatQ (splitAmount t.amount).1) notificationAmount = true ∧
      currency = "HIVE".data ∧
      (strContains t.memo "Invoice".data &&
        (strContains t.memo "http://".data ||
          strContains t.memo "https://".data)) = true))
    (hinv : dbGetInvoiceByNumber st num = some invoice)
    (hself : ¬(t.fromAcct = t.toAcct ∧
      jeq (parseFloatQ (splitAmount t.amount).1) notificationAmount = true ∧
      currency = "HIVE".data ∧
      (strContains t.memo "Invoice".data &&
        (strContains t.memo "http://".data ||
          strContains t.memo "https://".data)) = true))
    (hpay : dbGetPayment st txId invoice.id = some p) :
    processTransfer env now t txId blockNum st = st := by
  unfold processTransfer
  dsimp only
  rw [hcur]
  dsimp only
  rw [if_neg (not_not_intro hcv), hext]
  dsimp only
  rw [if_neg hnotif, hinv]
  dsimp only
  rw [if_neg hself, hpay]

theorem pairCount_zero_of_none (st : DbState) (txId invId : List Char)
    (h : dbGetPayment st txId invId = none) : pairCount st txId invId = 0 := by
  unfold dbGetPayment at h
  unfold pairCount
  rw [List.find?_eq_none] at h
  rw [List.filter_eq_nil.mpr (fun p hp => by simpa using h p hp)]
  rfl

/-- C3 counterexample: the `payments` table of `Database.initialize`
(part_010 lines 47–59) declares no `UNIQUE(transaction_id, invoice_id)`
constraint, so the modelled row store accepts a duplicated pair: inserting
the same payment twice leaves two rows for the pair, i.e. the pair is not
a uniqueness constraint on the Payment row itself. -/
theorem C3_counterexample :
    pairCount (dbInsertPayment (dbInsertPayment ⟨[], []⟩ boundaryPayment) boundaryPayment)
      "tx9".data "inv-id-1".data = 2 := by decide

/-- C3 (amended): uniqueness of the (transaction id, invoice id) pair is
enforced by the monitor's pre-insert existence check, not by a schema
constraint: processing a transfer with the same transaction id a second
time (any environment/clock/block) is a no-op on the store, and
processing never raises a pair's Payment-row count above one. -/
theorem C3_amended (env env2 : LedgerEnv) (now now2 : Nat) (t : HiveTransfer)
    (txId : List Char) (blockNum blockNum2 : Nat) (st : DbState) :
    processTransfer env2 now2 t txId blockNum2
        (processTransfer env now t txId blockNum st) =
      processTransfer env now t txId blockNum st ∧
    (∀ invId, pairCount st txId invId ≤ 1 →
      pairCount (processTransfer env now t txId blockNum st) txId invId ≤ 1) := by
  rcases processTransfer_cases env now t txId blockNum st with hA |
    ⟨currency, num, invoice, hcur, hcv, hext, hnotif, hinv, hself, hpay, hfin⟩
  · refine ⟨?_, fun invId hc => by rw [hA]; exact hc⟩
    rw [hA]
    rcases processTransfer_cases env2 now2 t txId blockNum2 st with hB |
      ⟨c2, n2, inv2, hcur2, hcv2, hext2, hnotif2, hinv2, hself2, hpay2, hfin2⟩
    · exact hB
    · exfalso
      have h1 := processTransfer_insert env now t txId blockNum st c2 n2 inv2
        hcur2 hcv2 hext2 hnotif2 hinv2 hself2 hpay2
      rw [hA] at h1
      have h2 := congrArg (fun s => s.payments.length) h1
      simp only [updateStatus_payments] at h2
      simp [dbInsertPayment] at h2
  · constructor
    · rw [hfin]
      obtain ⟨inv2, hinv2, hid2⟩ := getInvoice_updateStatus env now invoice
        (dbInsertPayment st
          { invoice_id := invoice.id, from_account := t.fromAcct,
            amount := parseFloatQ (splitAmount t.amount).1, currency := currency,
            block_number := blockNum, transaction_id := txId, created_at := now })
        num invoice (by rw [getInvoice_insert]; exact hinv)
      have hpay2 : dbGetPayment (updateInvoiceStatus env now invoice
          (dbInsertPayment st
            { invoice_id := invoice.id, from_account := t.fromAcct,
              amount := parseFloatQ (splitAmount t.amount).1, currency := currency,
              block_number := blockNum, transaction_id := txId, created_at := now }))
          txId inv2.id = some
            { invoice_id := invoice.id, from_account := t.fromAcct,
              amount := parseFloatQ (splitAmount t.amount).1, currency := currency,
              block_number := blockNum, transaction_id := txId, created_at := now } := by
        rw [hid2, getPayment_congr (updateStatus_payments env now invoice _) txId invoice.id]
        exact getPayment_insert st _ hpay
      exact processTransfer_dup env2 now2 t txId blockNum2 _ currency num inv2 _
        hcur hcv hext hnotif hinv2 hself hpay2
    · intro invId hc
      rw [hfin, pairCount_congr (updateStatus_payments env now invoice _) txId invId]
      unfold pairCount dbInsertPayment
      dsimp only
      rw [List.filter_append, List.length_append]
      by_cases hid : invoice.id = invId
      · have h0 : pairCount st txId invId = 0 :=
          pairCount_zero_of_none st txId invId (by rw [← hid]; exact hpay)
        unfold pairCount at h0
        rw [h0]
        have hle := List.length_filter_le
          (fun p : PaymentRow => decide (p.transaction_id = txId) &&
            decide (p.invoice_id = invId))
          [({ invoice_id := invoice.id, from_account := t.fromAcct,
              amount := parseFloatQ (splitAmount t.amount).1, currency := currency,
              block_number := blockNum, transaction_id := txId,
              created_at := now } : PaymentRow)]
        simp only [List.length_cons, List.length_nil] at hle
        omega
      · unfold pairCount at hc
        simp only [List.filter_cons, List.filter_nil, List.length_nil, hid,
          decide_eq_true_eq, Bool.and_eq_true]
        simp [hid]
        omega

/-! ## Claim C4: status monotonicity -/

/-- The code's fully-paid condition for a cached row, recomputed from all
recorded payments (part_014 lines 294–302). -/
def paidCondition (st : DbState) (r : InvoiceRow) : Bool :=
  match r.hive_conversion_data with
  | none => false
  | some conv =>
    jge (totalsFor st r.id "HIVE".data) (jsub conv.hiveAmount tolerance) ||
    jge (totalsFor st r.id "HBD".data) (jsub conv.hbdAmount tolerance)

/-- Every cached row of this invoice id is `paid` and meets the paid
threshold — the invariant established when the monitor marks an invoice
paid. -/
def paidLocked (st : DbState) (invId : List Char) : Prop :=
  ∀ r ∈ st.invoices, r.id = invId → r.status = Status.paid ∧ paidCondition st r = true

instance (st : DbState) (invId : List Char) : Decidable (paidLocked st invId) := by
  unfold paidLocked
  infer_instance

theorem determine_paid_iff (th tb eh eb : Option Amt) :
    determineNewStatus th tb eh eb = Status.paid ↔
      (jge th (jsub eh tolerance) || jge tb (jsub eb tolerance)) = true := by
  unfold determineNewStatus
  dsimp only
  split
  · rename_i h
    exact ⟨fun _ => h, fun _ => rfl⟩
  · rename_i h
    constructor
    · intro hp
      split at hp <;> exact Status.noConfusion hp
    · intro hcond
      exact absurd hcond h

theorem totalPaid_append_single (l : List PaymentRow) (p : PaymentRow) (cur : List Char) :
    totalPaid (l ++ [p]) cur =
      if p.currency = cur then jadd (totalPaid l cur) p.amount
      else totalPaid l cur := by
  unfold totalPaid
  rw [List.filter_append]
  by_cases hc : p.currency = cur
  · simp [hc, List.foldl_append]
  · simp [hc]

theorem totalsFor_insert (st : DbState) (row : PaymentRow) (invId cur : List Char) :
    totalsFor (dbInsertPayment st row) invId cur =
      if row.invoice_id = invId then
        (if row.currency = cur then jadd (totalsFor st invId cur) row.amount
         else totalsFor st invId cur)
      else totalsFor st invId cur := by
  unfold totalsFor dbInsertPayment
  dsimp only
  rw [List.filter_append]
  by_cases hi : row.invoice_id = invId
  · rw [if_pos hi]
    have hone : List.filter (fun p => decide (p.invoice_id = invId)) [row] = [row] := by
      simp [hi]
    rw [hone, totalPaid_append_single]
  · rw [if_neg hi]
    have hnil : List.filter (fun p => decide (p.invoice_id = invId)) [row] = [] := by
      simp [hi]
    rw [hnil, List.append_nil]

theorem Amt.toQ_nonneg {a : Amt} (h : 0 ≤ a.num) : 0 ≤ a.toQ :=
  div_nonneg (by exact_mod_cast h) (le_of_lt (Amt.den_cast_pos a))

theorem jge_jadd_nonneg {x b : Option Amt} {q : Amt}
    (h : jge x b = true) (hq : 0 ≤ q.num) : jge (jadd x (some q)) b = true := by
  cases x with
  | none => simp [jge] at h
  | some t =>
    cases b with
    | none => simp [jge] at h
    | some bb =>
      show bb.le (t.add q) = true
      have h1 : bb.toQ ≤ t.toQ := (Amt.le_iff bb t).mp h
      rw [Amt.le_iff, Amt.toQ_add]
      have h2 := Amt.toQ_nonneg hq
      linarith

theorem parseFloatQ_nonneg (s : List Char) (q : Amt)
    (h : parseFloatQ s = some q) : 0 ≤ q.num := by
  unfold parseFloatQ at h
  dsimp only at h
  split at h
  · exact absurd h (by simp)
  · split at h
    · rw [Option.some.injEq] at h
      subst h
      unfold amt
      positivity
    · rw [Option.some.injEq] at h
      subst h
      unfold amt
      positivity

theorem totalsFor_congr {st st2 : DbState} (h : st.payments = st2.payments)
    (invId cur : List Char) : totalsFor st invId cur = totalsFor st2 invId cur := by
  unfold totalsFor
  rw [h]

theorem paidCondition_congr {st st2 : DbState} (h : st.payments = st2.payments)
    (r : InvoiceRow) : paidCondition st r = paidCondition st2 r := by
  unfold paidCondition
  rw [totalsFor_congr h, totalsFor_congr h]

theorem paidCondition_patch (st : DbState) (r : InvoiceRow) (s : Status) (n : Nat) :
    paidCondition st { r with status := s, updated_at := n } = paidCondition st r := rfl

theorem paidCondition_insert {st : DbState} {row : PaymentRow} {q : Amt}
    (hamt : row.amount = some q) (hq : 0 ≤ q.num) (r : InvoiceRow)
    (h : paidCondition st r = true) : paidCondition (dbInsertPayment st row) r = true := by
  unfold paidCondition at h ⊢
  cases hconv : r.hive_conversion_data with
  | none => rw [hconv] at h; exact absurd h (by simp)
  | some conv =>
    rw [hconv] at h
    rw [Bool.or_eq_true] at h ⊢
    rw [totalsFor_insert, totalsFor_insert]
    rcases h with h | h
    · left
      split
      · split
        · rw [hamt]; exact jge_jadd_nonneg h hq
        · exact h
      · exact h
    · right
      split
      · split
        · rw [hamt]; exact jge_jadd_nonneg h hq
        · exact h
      · exact h

/-- Either `updateInvoiceStatus` leaves the store unchanged, or it writes
the recomputed status for the invoice's id. -/
theorem updateStatus_cases (env : LedgerEnv) (now : Nat) (inv : InvoiceRow)
    (st : DbState) :
    updateInvoiceStatus env now inv st = st ∨
    ∃ conv, inv.hive_conversion_data = some conv ∧
      updateInvoiceStatus env now inv st =
        dbUpdateInvoiceStatus st inv.id
          (determineNewStatus (totalsFor st inv.id "HIVE".data)
            (totalsFor st inv.id "HBD".data) conv.hiveAmount conv.hbdAmount) now := by
  unfold updateInvoiceStatus
  dsimp only
  split
  · exact .inl rfl
  · rename_i conv heq
    split
    · exact .inr ⟨conv, heq, rfl⟩
    · exact .inl rfl
theorem paidLocked_dbUpdate (st : DbState) (uid : List Char) (ns : Status) (now : Nat)
    (invId : List Char) (h : paidLocked st invId)
    (hns : uid = invId → ns = Status.paid) :
    paidLocked (dbUpdateInvoiceStatus st uid ns now) invId := by
  intro r' hr' hid
  unfold dbUpdateInvoiceStatus at hr'
  dsimp only at hr'
  rw [List.mem_map] at hr'
  obtain ⟨r, hrmem, hrf⟩ := hr'
  have hpays : (dbUpdateInvoiceStatus st uid ns now).payments = st.payments := rfl
  by_cases hru : r.id = uid
  · rw [if_pos hru] at hrf
    subst hrf
    have hid2 : r.id = invId := hid
    obtain ⟨hs, hc⟩ := h r hrmem hid2
    refine ⟨hns (hru ▸ hid2), ?_⟩
    rw [paidCondition_congr hpays]
    rw [paidCondition_patch]
    exact hc
  · rw [if_neg hru] at hrf
    subst hrf
    obtain ⟨hs, hc⟩ := h r hrmem hid
    refine ⟨hs, ?_⟩
    rw [paidCondition_congr hpays]
    exact hc

theorem updateStatus_paidLocked (env : LedgerEnv) (now : Nat) (inv : InvoiceRow)
    (st : DbState) (invId : List Char) (hmem : inv ∈ st.invoices)
    (h : paidLocked st invId) :
    paidLocked (updateInvoiceStatus env now inv st) invId := by
  rcases updateStatus_cases env now inv st with heq | ⟨conv, hconv, heq⟩
  · rw [heq]; exact h
  · rw [heq]
    apply paidLocked_dbUpdate st inv.id _ now invId h
    intro hid
    obtain ⟨hs, hc⟩ := h inv hmem hid
    rw [determine_paid_iff]
    unfold paidCondition at hc
    rw [hconv] at hc
    exact hc

theorem processTransfer_paidLocked (env : LedgerEnv) (now : Nat) (t : HiveTransfer)
    (txId : List Char) (blockNum : Nat) (st : DbState) (invId : List Char)
    (hwf : (parseFloatQ (splitAmount t.amount).1).isSome = true)
    (h : paidLocked st invId) :
    paidLocked (processTransfer env now t txId blockNum st) invId := by
  rcases processTransfer_cases env now t txId blockNum st with heq |
    ⟨currency, num, invoice, hcur, hcv, hext, hnotif, hinv, hself, hpay, heq⟩
  · rw [heq]; exact h
  · rw [heq]
    obtain ⟨q, hq⟩ := Option.isSome_iff_exists.mp hwf
    have hqn := parseFloatQ_nonneg _ _ hq
    have hins : paidLocked (dbInsertPayment st
        { invoice_id := invoice.id, from_account := t.fromAcct,
          amount := parseFloatQ (splitAmount t.amount).1, currency := currency,
          block_number := blockNum, transaction_id := txId, created_at := now }) invId := by
      intro r hr hid
      have hr2 : r ∈ st.invoices := hr
      obtain ⟨hs, hc⟩ := h r hr2 hid
      exact ⟨hs, paidCondition_insert hq hqn r hc⟩
    have hmem : invoice ∈ (dbInsertPayment st
        { invoice_id := invoice.id, from_account := t.fromAcct,
          amount := parseFloatQ (splitAmount t.amount).1, currency := currency,
          block_number := blockNum, transaction_id := txId, created_at := now }).invoices := by
      unfold dbGetInvoiceByNumber at hinv
      exact List.mem_of_find?_eq_some hinv
    exact updateStatus_paidLocked env now invoice _ invId hmem hins

/-- One transfer observation handed to the monitor: the operation payload,
its ledger transaction id, the block it sits in and the wall-clock time of
processing. -/
structure Obs where
  transfer : HiveTransfer
  txId : List Char
  blockNum : Nat
  now : Nat
deriving DecidableEq

/-- A sequence of payment observations, processed in order through
`processTransfer`. -/
def processObservations (env : LedgerEnv) : List Obs → DbState → DbState
  | [], st => st
  | o :: os, st =>
    processObservations env os (processTransfer env o.now o.transfer o.txId o.blockNum st)

theorem processObservations_paidLocked (env : LedgerEnv) (obs : List Obs)
    (st : DbState) (invId : List Char)
    (hwf : ∀ o ∈ obs, (parseFloatQ (splitAmount o.transfer.amount).1).isSome = true)
    (h : paidLocked st invId) :
    paidLocked (processObservations env obs st) invId := by
  induction obs generalizing st with
  | nil => exact h
  | cons o os ih =>
    exact ih _ (fun x hx => hwf x (List.mem_cons_of_mem o hx))
      (processTransfer_paidLocked env o.now o.transfer o.txId o.blockNum st invId
        (hwf o (List.mem_cons_self o os)) h)

/-- C4: once an invoice is marked paid by the monitor — every cached row of
its id carries status `paid` and its recorded totals meet the inclusive
fully-paid threshold, which is exactly the state `updateInvoiceStatus`
leaves behind when it writes `paid` — no sequence of further transfer
observations with well-formed (parseable, hence non-negative) amounts ever
reverts any row of that invoice to `pending` or `partiallyPaid`: payments
are only ever appended, the recomputed totals only grow, and the inclusive
`>=` threshold keeps holding, so every status the monitor rewrites for this
id is again `paid`. -/
theorem C4_status_monotonic (env : LedgerEnv) (obs : List Obs) (st : DbState)
    (invId : List Char)
    (hwf : ∀ o ∈ obs, (parseFloatQ (splitAmount o.transfer.amount).1).isSome = true)
    (h : paidLocked st invId) :
    ∀ r ∈ (processObservations env obs st).invoices, r.id = invId →
      r.status = Status.paid ∧ r.status ≠ Status.pending ∧
        r.status ≠ Status.partiallyPaid := by
  intro r hr hid
  obtain ⟨hs, _⟩ := processObservations_paidLocked env obs st invId hwf h r hr hid
  exact ⟨hs, by rw [hs]; exact fun hx => Status.noConfusion hx,
    by rw [hs]; exact fun hx => Status.noConfusion hx⟩

/-- The recorded 10 HIVE payment that settled `INV-1`. -/
def settlingPayment : PaymentRow :=
  { invoice_id := "inv-id-1".data, from_account := "client".data,
    amount := some (amt 10 1), currency := "HIVE".data, block_number := 3,
    transaction_id := "tx0".data, created_at := 0 }

/-- The cache after `INV-1` was marked paid: its row carries status `paid`
and a recorded 10 HIVE payment meeting the threshold. -/
def paidStateINV1 : DbState :=
  { invoices := [{ invINV1 with status := Status.paid }],
    payments := [settlingPayment] }

/-- A later observation: a further 6.000 HIVE payment toward `INV-1`. -/
def obsLater : Obs :=
  ⟨⟨"client".data, "op".data, "6.000 HIVE".data, "Payment for Invoice INV-1".data⟩,
    "txC".data, 9, 4⟩

/-- Witness for C4: over the concrete paid cache, processing a further
payment observation leaves the `INV-1` row paid. -/
theorem C4_status_monotonic_witness :
    (∀ o ∈ [obsLater], (parseFloatQ (splitAmount o.transfer.amount).1).isSome = true) ∧
    paidLocked paidStateINV1 "inv-id-1".data ∧
    ∀ r ∈ (processObservations envSynced [obsLater] paidStateINV1).invoices,
      r.id = "inv-id-1".data → r.status = Status.paid ∧ r.status ≠ Status.pending ∧
        r.status ≠ Status.partiallyPaid :=
  ⟨by decide, by decide,
    C4_status_monotonic envSynced [obsLater] paidStateINV1 "inv-id-1".data
      (by decide) (by decide)⟩

def payT : HiveTransfer :=
  ⟨"client".data, "op".data, "6.000 HIVE".data, "Payment for Invoice INV-1".data⟩

/-- Witness for C3 (amended): replaying the same transaction id over the
sample cache is a no-op and the pair keeps a single row. -/
theorem C3_amended_witness :
    processTransfer envSynced 2 payT "txA".data 8
        (processTransfer envSynced 1 payT "txA".data 7 stateINV1) =
      processTransfer envSynced 1 payT "txA".data 7 stateINV1 ∧
    pairCount (processTransfer envSynced 1 payT "txA".data 7 stateINV1)
      "txA".data "inv-id-1".data ≤ 1 :=
  ⟨(C3_amended envSynced envSynced 1 2 payT "txA".data 7 8 stateINV1).1,
    (C3_amended envSynced envSynced 1 2 payT "txA".data 7 8 stateINV1).2
      "inv-id-1".data (by decide)⟩

/-- Witness for C2 (amended) at the boundary state. -/
theorem C2_amended_witness :
    rowStatus (updateInvoiceStatus envSynced 1 invINV1 boundaryState) invINV1.id =
      some (determineNewStatus (totalsFor boundaryState invINV1.id "HIVE".data)
        (totalsFor boundaryState invINV1.id "HBD".data)
        (some (amt 10 1)) (some (amt 5 1))) :=
  C2_amended.2.2 envSynced 1 invINV1 boundaryState ⟨some (amt 10 1), some (amt 5 1)⟩ rfl rfl

/-! ## Claim C8: memo pattern order and case sensitivity -/

theorem toNat_ofNat_small {n : Nat} (h : n < 55296) : (Char.ofNat n).toNat = n := by
  unfold Char.ofNat
  rw [dif_pos (Or.inl h)]
  rfl

theorem isUpperChar_lowerChar (c : Char) : isUpperChar (lowerChar c) = false := by
  unfold lowerChar
  by_cases h : isUpperChar c
  · rw [if_pos h]
    unfold isUpperChar at h ⊢
    rw [Bool.and_eq_true, decide_eq_true_eq, decide_eq_true_eq] at h
    have ht : (Char.ofNat (c.toNat + 32)).toNat = c.toNat + 32 :=
      toNat_ofNat_small (by omega)
    rw [ht]
    simp only [Bool.and_eq_false_iff, decide_eq_false_iff_not]
    omega
  · rw [if_neg h]
    simpa using h

theorem lowerChar_of_not_upper {d : Char} (h : isUpperChar d = false) :
    lowerChar d = d := by
  unfold lowerChar
  rw [h]
  simp

theorem lowerChar_lowerChar (c : Char) : lowerChar (lowerChar c) = lowerChar c :=
  lowerChar_of_not_upper (isUpperChar_lowerChar c)

theorem isAlphaChar_lowerChar (c : Char) : isAlphaChar (lowerChar c) = isAlphaChar c := by
  unfold isAlphaChar lowerChar
  by_cases h : isUpperChar c
  · rw [if_pos h]
    unfold isUpperChar at h
    rw [Bool.and_eq_true, decide_eq_true_eq, decide_eq_true_eq] at h
    have ht : (Char.ofNat (c.toNat + 32)).toNat = c.toNat + 32 :=
      toNat_ofNat_small (by omega)
    unfold isUpperChar isLowerChar
    rw [ht]
    rw [Bool.eq_iff_iff]
    simp only [Bool.or_eq_true, Bool.and_eq_true, decide_eq_true_eq]
    omega
  · rw [if_neg h]

theorem isDigitChar_lowerChar (c : Char) : isDigitChar (lowerChar c) = isDigitChar c := by
  unfold lowerChar
  by_cases h : isUpperChar c
  · rw [if_pos h]
    unfold isUpperChar at h
    rw [Bool.and_eq_true, decide_eq_true_eq, decide_eq_true_eq] at h
    have ht : (Char.ofNat (c.toNat + 32)).toNat = c.toNat + 32 :=
      toNat_ofNat_small (by omega)
    unfold isDigitChar
    rw [ht]
    rw [Bool.eq_iff_iff]
    simp only [Bool.and_eq_true, decide_eq_true_eq]
    omega
  · rw [if_neg h]

theorem isSpaceChar_lowerChar (c : Char) : isSpaceChar (lowerChar c) = isSpaceChar c := by
  unfold lowerChar
  by_cases h : isUpperChar c
  · rw [if_pos h]
    unfold isUpperChar at h
    rw [Bool.and_eq_true, decide_eq_true_eq, decide_eq_true_eq] at h
    have ht : (Char.ofNat (c.toNat + 32)).toNat = c.toNat + 32 :=
      toNat_ofNat_small (by omega)
    have hnot : ∀ d : Char, 65 ≤ d.toNat → isSpaceChar d = false := by
      intro d hd
      unfold isSpaceChar
      simp only [Bool.or_eq_false_iff, decide_eq_false_iff_not]
      have h1 : (' ').toNat = 32 := rfl
      have h2 : ('\t').toNat = 9 := rfl
      have h3 : ('\n').toNat = 10 := rfl
      have h4 : ('\r').toNat = 13 := rfl
      refine ⟨⟨⟨?_, ?_⟩, ?_⟩, ?_⟩ <;>
        · intro he
          have hto := congrArg Char.toNat he
          simp only [h1, h2, h3, h4] at hto
          omega
    rw [hnot _ (by rw [ht]; omega), hnot _ (by omega)]
  · rw [if_neg h]

theorem lowerChar_eq_dash_iff (c : Char) : lowerChar c = '-' ↔ c = '-' := by
  unfold lowerChar
  by_cases h : isUpperChar c
  · rw [if_pos h]
    unfold isUpperChar at h
    rw [Bool.and_eq_true, decide_eq_true_eq, decide_eq_true_eq] at h
    have ht : (Char.ofNat (c.toNat + 32)).toNat = c.toNat + 32 :=
      toNat_ofNat_small (by omega)
    constructor
    · intro he
      exfalso
      have := congrArg Char.toNat he
      rw [ht] at this
      have hd : ('-').toNat = 45 := rfl
      omega
    · intro he
      exfalso
      have := congrArg Char.toNat he
      have hd : ('-').toNat = 45 := rfl
      omega
  · rw [if_neg h]

theorem matchKeyword_map (k s : List Char) :
    matchKeyword k (s.map lowerChar) = (matchKeyword k s).map (List.map lowerChar) := by
  induction k generalizing s with
  | nil => rfl
  | cons kc kt ih =>
    cases s with
    | nil => rfl
    | cons c cs =>
      show (if lowerChar (lowerChar c) = lowerChar kc then
          matchKeyword kt (cs.map lowerChar) else none) =
        (if lowerChar c = lowerChar kc then matchKeyword kt cs else none).map
          (List.map lowerChar)
      rw [lowerChar_lowerChar]
      by_cases h : lowerChar c = lowerChar kc
      · rw [if_pos h, if_pos h, ih]
      · rw [if_neg h, if_neg h]
        rfl

theorem matchCodeAt_true_map (s : List Char) :
    matchCodeAt true (s.map lowerChar) = (matchCodeAt true s).map (List.map lowerChar) := by
  unfold matchCodeAt
  dsimp only
  have hAlpha : (fun a => isAlphaChar (lowerChar a)) = isAlphaChar :=
    funext isAlphaChar_lowerChar
  have hDigit : (fun a => isDigitChar (lowerChar a)) = isDigitChar :=
    funext isDigitChar_lowerChar
  rw [List.takeWhile_map, List.dropWhile_map]
  simp only [Function.comp_def, eq_self_iff_true, if_true]
  rw [hAlpha]
  by_cases hls : s.takeWhile isAlphaChar = []
  · rw [hls]
    rfl
  · have hmapne : ¬((s.takeWhile isAlphaChar).map lowerChar = []) := by
      simpa using hls
    rw [if_neg hmapne, if_neg hls]
    cases hd : s.dropWhile isAlphaChar with
    | nil => rfl
    | cons d r =>
      dsimp only [List.map]
      by_cases hdash : d = '-'
      · subst hdash
        show (if (List.map lowerChar r).takeWhile isDigitChar = [] then none
            else some (List.map lowerChar (List.takeWhile isAlphaChar s) ++ '-' ::
              (List.map lowerChar r).takeWhile isDigitChar)) =
          (if r.takeWhile isDigitChar = [] then none
            else some (List.takeWhile isAlphaChar s ++ '-' ::
              r.takeWhile isDigitChar)).map (List.map lowerChar)
        rw [List.takeWhile_map]
        simp only [Function.comp_def]
        rw [hDigit]
        by_cases hds : r.takeWhile isDigitChar = []
        · rw [hds]
          rfl
        · have hdsne : ¬((r.takeWhile isDigitChar).map lowerChar = []) := by
            simpa using hds
          rw [if_neg hdsne, if_neg hds]
          simp [List.map_append]
          rfl
      · have hld : lowerChar d ≠ '-' := fun h => hdash ((lowerChar_eq_dash_iff d).mp h)
        split
        · first
          | exact absurd rfl hdash
          | (rename_i r2 heq
             injection heq with h1 h2
             first
               | exact absurd h1 hld
               | exact absurd h1 hdash)
        · split
          · first
            | exact absurd rfl hdash
            | (rename_i r2 heq
               injection heq with h1 h2
               first
                 | exact absurd h1 hld
                 | exact absurd h1 hdash)
          · rfl

theorem p1At_map (s : List Char) :
    p1At (s.map lowerChar) = (p1At s).map (List.map lowerChar) := by
  unfold p1At
  rw [matchKeyword_map]
  cases h : matchKeyword "invoice".data s with
  | none => rfl
  | some r1 =>
    show (if (r1.map lowerChar).takeWhile isSpaceChar = [] then none
        else matchCodeAt true ((r1.map lowerChar).dropWhile isSpaceChar)) =
      (if r1.takeWhile isSpaceChar = [] then none
        else matchCodeAt true (r1.dropWhile isSpaceChar)).map (List.map lowerChar)
    have hSpace : (fun a => isSpaceChar (lowerChar a)) = isSpaceChar :=
      funext isSpaceChar_lowerChar
    rw [List.takeWhile_map, List.dropWhile_map]
    simp only [Function.comp_def]
    rw [hSpace]
    by_cases hsp : r1.takeWhile isSpaceChar = []
    · rw [hsp]
      rfl
    · rw [if_neg (by simpa using hsp), if_neg hsp, matchCodeAt_true_map]

theorem p3At_map (s : List Char) :
    p3At (s.map lowerChar) = (p3At s).map (List.map lowerChar) := by
  unfold p3At
  rw [matchKeyword_map]
  cases h : matchKeyword "invoice:".data s with
  | none => rfl
  | some r1 =>
    show matchCodeAt true ((r1.map lowerChar).dropWhile isSpaceChar) =
      (matchCodeAt true (r1.dropWhile isSpaceChar)).map (List.map lowerChar)
    have hSpace : (fun a => isSpaceChar (lowerChar a)) = isSpaceChar :=
      funext isSpaceChar_lowerChar
    rw [List.dropWhile_map]
    simp only [Function.comp_def]
    rw [hSpace, matchCodeAt_true_map]

theorem regexSearch_map (f : List Char → Option (List Char))
    (hf : ∀ s, f (s.map lowerChar) = (f s).map (List.map lowerChar)) (s : List Char) :
    regexSearch f (s.map lowerChar) = (regexSearch f s).map (List.map lowerChar) := by
  induction s with
  | nil => exact hf []
  | cons c cs ih =>
    show regexSearch f ((c :: cs).map lowerChar) = _
    simp only [regexSearch, List.map_cons]
    rw [show (lowerChar c :: cs.map lowerChar) = ((c :: cs).map lowerChar) from rfl,
      hf (c :: cs)]
    cases h : f (c :: cs) with
    | some r => rfl
    | none => simpa using ih

theorem p2At_none_of_no_upper (s : List Char) (h : ∀ c ∈ s, isUpperChar c = false) :
    p2At s = none := by
  unfold p2At matchCodeAt
  simp only [Bool.false_eq_true, if_false]
  cases s with
  | nil => rfl
  | cons c cs =>
    have hc := h c (List.mem_cons_self c cs)
    rw [List.takeWhile_cons, hc]
    simp

theorem regexSearch_p2_none (memo : List Char) (h : ∀ c ∈ memo, isUpperChar c = false) :
    regexSearch p2At memo = none := by
  induction memo with
  | nil => rfl
  | cons c cs ih =>
    simp only [regexSearch]
    rw [p2At_none_of_no_upper _ h]
    exact ih (fun x hx => h x (List.mem_cons_of_mem _ hx))

/-- C8 counterexample: the bare-code pattern is **not** case-insensitive —
its regex is `/([A-Z]+-\d+)/` without the `i` flag — so the lowercase memo
`inv-9` extracts no invoice number at all, while `INV-9` extracts
`INV-9`.  Hence the accepted conventions are not all matched
case-insensitively. -/
theorem C8_counterexample :
    extractInvoiceNumber "inv-9".data = none ∧
    extractInvoiceNumber "INV-9".data = some "INV-9".data := by
  decide

/-- C8 (amended): invoice-number extraction tries the three patterns in
order — `Invoice <code>` (case-insensitive), bare `<code>`, `invoice:
<code>` (case-insensitive) — with the first matching pattern winning
(conjuncts 1–3); patterns 1 and 3 are case-insensitive (lowercasing the
memo does not change whether they match, conjuncts 4–5); but the bare
pattern is case-sensitive: it never matches a memo without an uppercase
letter (conjunct 6). -/
theorem C8_amended (memo m : List Char) :
    (regexSearch p1At memo = some m → extractInvoiceNumber memo = some m) ∧
    (regexSearch p1At memo = none → regexSearch p2At memo = some m →
      extractInvoiceNumber memo = some m) ∧
    (regexSearch p1At memo = none → regexSearch p2At memo = none →
      extractInvoiceNumber memo = regexSearch p3At memo) ∧
    (regexSearch p1At (memo.map lowerChar)).isSome = (regexSearch p1At memo).isSome ∧
    (regexSearch p3At (memo.map lowerChar)).isSome = (regexSearch p3At memo).isSome ∧
    ((∀ c ∈ memo, isUpperChar c = false) → regexSearch p2At memo = none) := by
  refine ⟨?_, ?_, ?_, ?_, ?_, regexSearch_p2_none memo⟩
  · intro h
    unfold extractInvoiceNumber
    rw [h]
  · intro h1 h2
    unfold extractInvoiceNumber
    rw [h1, h2]
  · intro h1 h2
    unfold extractInvoiceNumber
    rw [h1, h2]
  · rw [regexSearch_map p1At p1At_map]
    cases regexSearch p1At memo <;> rfl
  · rw [regexSearch_map p3At p3At_map]
    cases regexSearch p3At memo <;> rfl

/-- Witness for C8 (amended): the keyword pattern wins on a concrete memo,
and the bare pattern rejects a concrete all-lowercase memo. -/
theorem C8_amended_witness :
    extractInvoiceNumber "pay Invoice INV-7 now".data = some "INV-7".data ∧
    regexSearch p2At "all lower inv-7".data = none :=
  ⟨(C8_amended "pay Invoice INV-7 now".data "INV-7".data).1 (by decide),
    (C8_amended "all lower inv-7".data "INV-7".data).2.2.2.2.2 (by decide)⟩

/-! ## Claim C7: compensating deletion on ledger failure (`invoices.post`)

The handler inserts the invoice row and its line items into the SQLite
cache, then attempts the blockchain write (`storeEncryptedInvoice`); on
success it UPDATEs the cached row with the transaction id, on failure it
DELETEs the invoice row and its items again and reports an error.  The
external ledger call is a parameter (`LedgerWrite`); fresh UUIDs are
parameters with a freshness hypothesis. -/

/-- Exact product of two amounts (JS `quantity * unitPrice`; exact rational
arithmetic, the denominators multiply). -/
def Amt.mul (a b : Amt) : Amt :=
  ⟨a.num * b.num, a.dpred * b.dpred + a.dpred + b.dpred⟩

/-- One line item of a validated create-invoice request. -/
structure ItemReq where
  description : List Char
  quantity : Amt
  unitPrice : Amt
deriving DecidableEq

/-- The validated create-invoice request body (the fields the handler's
database writes use). -/
structure CreateReq where
  clientName : List Char
  items : List ItemReq
  tax : Amt
deriving DecidableEq

/-- Outcome of the external `storeEncryptedInvoice` blockchain write. -/
inductive LedgerWrite where
  | ok (txId permlink payload : List Char)
  | err
deriving DecidableEq

/-- One row of the `invoices` table as the create handler writes it. -/
structure ApiInvoiceRow where
  id : List Char
  invoice_number : List Char
  client_name : List Char
  subtotal : Amt
  tax : Amt
  total : Amt
  hive_conversion_data : Conv
  status : Status
  created_at : Nat
  updated_at : Nat
  hive_transaction_id : Option (List Char)
  hive_permlink : Option (List Char)
  encrypted_data : Option (List Char)
deriving DecidableEq

/-- One row of the `invoice_items` table. -/
structure ItemRow where
  id : List Char
  invoice_id : List Char
  description : List Char
  quantity : Amt
  unit_price : Amt
  total : Amt
deriving DecidableEq

/-- The API-side cache state: the `invoices` and `invoice_items` tables. -/
structure ApiState where
  invoices : List ApiInvoiceRow
  items : List ItemRow
deriving DecidableEq

/-- `INSERT INTO invoices ...`. -/
def apiInsertInvoice (st : ApiState) (row : ApiInvoiceRow) : ApiState :=
  { st with invoices := st.invoices ++ [row] }

/-- `INSERT INTO invoice_items ...`. -/
def apiInsertItem (st : ApiState) (row : ItemRow) : ApiState :=
  { st with items := st.items ++ [row] }

/-- `DELETE FROM invoices WHERE id = ?`. -/
def apiDeleteInvoice (st : ApiState) (invId : List Char) : ApiState :=
  { st with invoices := st.invoices.filter (fun r => !(decide (r.id = invId))) }

/-- `DELETE FROM invoice_items WHERE invoice_id = ?`. -/
def apiDeleteItems (st : ApiState) (invId : List Char) : ApiState :=
  { st with items := st.items.filter (fun r => !(decide (r.invoice_id = invId))) }

/-- The column updates of the post-ledger `UPDATE invoices` statement. -/
def patchTx (txId permlink payload : List Char) (now2 : Nat)
    (r : ApiInvoiceRow) : ApiInvoiceRow :=
  { r with
      hive_transaction_id := some txId,
      hive_permlink := some permlink,
      encrypted_data := some payload,
      updated_at := now2 }

/-- `UPDATE invoices SET hive_transaction_id = ?, hive_permlink = ?,
encrypted_data = ?, updated_at = ? WHERE id = ?`. -/
def apiSetTx (st : ApiState) (invId txId permlink payload : List Char)
    (now2 : Nat) : ApiState :=
  { st with invoices := st.invoices.map (fun r =>
      if r.id = invId then patchTx txId permlink payload now2 r else r) }

/-- The item row the handler inserts for one (fresh item id, request item)
pair. -/
def mkItemRow (invId : List Char) (p : List Char × ItemReq) : ItemRow :=
  { id := p.1, invoice_id := invId, description := p.2.description,
    quantity := p.2.quantity, unit_price := p.2.unitPrice,
    total := p.2.quantity.mul p.2.unitPrice }

/-- The item-insertion loop of the handler. -/
def insertItems (invId : List Char) : List (List Char × ItemReq) → ApiState → ApiState
  | [], st => st
  | p :: rest, st => insertItems invId rest (apiInsertItem st (mkItemRow invId p))

/-- `invoices.post('/')` (invoices.ts lines 295–426): compute the totals,
insert the invoice row (status `pending`) and its items, then attempt the
ledger write; on success UPDATE the row with the transaction data, on
failure DELETE the invoice row and its items and report failure.  Returns
the final cache state and whether the creation succeeded. -/
def createInvoice (st : ApiState) (req : CreateReq) (conv : Conv)
    (invoiceId invoiceNumber : List Char) (itemIds : List (List Char))
    (now : Nat) (ledger : LedgerWrite) : ApiState × Bool :=
  let subtotal := req.items.foldl
    (fun acc it => acc.add (it.quantity.mul it.unitPrice)) (amt 0 1)
  let total := subtotal.add req.tax
  let st1 := apiInsertInvoice st
    { id := invoiceId, invoice_number := invoiceNumber,
      client_name := req.clientName, subtotal := subtotal, tax := req.tax,
      total := total, hive_conversion_data := conv, status := Status.pending,
      created_at := now, updated_at := now, hive_transaction_id := none,
      hive_permlink := none, encrypted_data := none }
  let st2 := insertItems invoiceId (itemIds.zip req.items) st1
  match ledger with
  | .ok txId permlink payload => (apiSetTx st2 invoiceId txId permlink payload now, true)
  | .err => (apiDeleteItems (apiDeleteInvoice st2 invoiceId) invoiceId, false)

theorem insertItems_spec (invId : List Char) (l : List (List Char × ItemReq))
    (st : ApiState) :
    (insertItems invId l st).items = st.items ++ l.map (mkItemRow invId) ∧
    (insertItems invId l st).invoices = st.invoices := by
  induction l generalizing st with
  | nil => simp [insertItems]
  | cons p rest ih =>
    obtain ⟨h1, h2⟩ := ih (apiInsertItem st (mkItemRow invId p))
    refine ⟨?_, by rw [insertItems, h2]; rfl⟩
    rw [insertItems, h1]
    show (st.items ++ [mkItemRow invId p]) ++ _ = _
    rw [List.append_assoc]
    rfl

/-- C7: when the ledger write fails after the cache rows were inserted, the
handler's compensating DELETEs remove the invoice row and all its line
items: the reported outcome is failure, the final cache holds no invoice
row with the fresh id and no item row referencing it, and — because the
fresh id cannot collide with pre-existing rows — the cache is restored
exactly to its prior state, so no invoice exists in the cache without a
successful ledger write behind it. -/
theorem C7_compensating_deletion (st : ApiState) (req : CreateReq) (conv : Conv)
    (invoiceId invoiceNumber : List Char) (itemIds : List (List Char)) (now : Nat)
    (hfreshInv : ∀ r ∈ st.invoices, r.id ≠ invoiceId)
    (hfreshItem : ∀ r ∈ st.items, r.invoice_id ≠ invoiceId) :
    (createInvoice st req conv invoiceId invoiceNumber itemIds now .err).2 = false ∧
    (∀ r ∈ (createInvoice st req conv invoiceId invoiceNumber itemIds now .err).1.invoices,
      r.id ≠ invoiceId) ∧
    (∀ r ∈ (createInvoice st req conv invoiceId invoiceNumber itemIds now .err).1.items,
      r.invoice_id ≠ invoiceId) ∧
    (createInvoice st req conv invoiceId invoiceNumber itemIds now .err).1 = st := by
  have hmain :
      (createInvoice st req conv invoiceId invoiceNumber itemIds now .err).1 = st := by
    unfold createInvoice
    dsimp only
    obtain ⟨hitems, hinvs⟩ := insertItems_spec invoiceId (itemIds.zip req.items)
      (apiInsertInvoice st _)
    unfold apiDeleteItems apiDeleteInvoice
    dsimp only
    rw [hitems, hinvs]
    unfold apiInsertInvoice
    dsimp only
    rw [List.filter_append, List.filter_append, List.filter_map]
    rw [List.filter_eq_self.mpr (fun (r : ApiInvoiceRow) hr => by simp [hfreshInv r hr])]
    rw [List.filter_eq_self.mpr (fun (r : ItemRow) hr => by simp [hfreshItem r hr])]
    have hz : ((fun r => !(decide (r.invoice_id = invoiceId))) ∘ mkItemRow invoiceId) =
        fun _ => false := by
      funext p
      simp [mkItemRow, Function.comp]
    rw [hz]
    simp
  refine ⟨rfl, ?_, ?_, hmain⟩
  · rw [hmain]
    exact hfreshInv
  · rw [hmain]
    exact hfreshItem

/-- A pre-existing cached invoice row unrelated to the fresh id. -/
def otherInvoiceRow : ApiInvoiceRow :=
  { id := "other-id".data, invoice_number := "INV-0".data,
    client_name := "bob".data, subtotal := amt 1 1, tax := amt 0 1,
    total := amt 1 1, hive_conversion_data := ⟨some (amt 1 1), some (amt 1 2)⟩,
    status := Status.pending, created_at := 0, updated_at := 0,
    hive_transaction_id := some "tx-old".data, hive_permlink := none,
    encrypted_data := none }

/-- The API cache before the failing request: one unrelated invoice. -/
def apiStateBefore : ApiState := { invoices := [otherInvoiceRow], items := [] }

/-- The failing request: one line item, 2 × 3.5 plus tax 1. -/
def reqW : CreateReq :=
  { clientName := "alice".data, items := [⟨"widget".data, amt 2 1, amt 35 10⟩],
    tax := amt 1 1 }

/-- Witness for C7: a concrete failing creation reports failure and leaves
the cache exactly as before. -/
theorem C7_compensating_deletion_witness :
    (createInvoice apiStateBefore reqW ⟨some (amt 8 1), some (amt 4 1)⟩
        "fresh-id".data "INV-2".data ["item-id-1".data] 7 .err).2 = false ∧
    (createInvoice apiStateBefore reqW ⟨some (amt 8 1), some (amt 4 1)⟩
        "fresh-id".data "INV-2".data ["item-id-1".data] 7 .err).1 = apiStateBefore :=
  ⟨(C7_compensating_deletion apiStateBefore reqW ⟨some (amt 8 1), some (amt 4 1)⟩
      "fresh-id".data "INV-2".data ["item-id-1".data] 7 (by decide) (by decide)).1,
    (C7_compensating_deletion apiStateBefore reqW ⟨some (amt 8 1), some (amt 4 1)⟩
      "fresh-id".data "INV-2".data ["item-id-1".data] 7 (by decide) (by decide)).2.2.2⟩

/-! ## Claim C6: the scan loop and its checkpoint (part_014 lines 87–140)

`processNewBlocks` reads the chain head, processes the batch
`lastProcessedBlock+1 … min(lastProcessedBlock+200, head)` and then sets
and saves the checkpoint to the batch end — unconditionally.
`processBlock` catches its own errors (a failed `getBlock` leaves the
record store untouched and the loop continues), and `processTransfer`
catches its own errors as well, so the only throw site inside the
per-block try is the `getBlock` call itself. -/

/-- One transaction of a fetched block: its operations, each either a
transfer payload (`some`) or an operation of another kind (`none`). -/
structure BlockTx where
  operations : List (Option HiveTransfer)
deriving DecidableEq

/-- A fetched block: its transactions and (possibly short) id list. -/
structure Block where
  transactions : List BlockTx
  transaction_ids : List (List Char)
deriving DecidableEq

/-- Outcome of `client.database.getBlock`: a block, a block without
transactions (`!block?.transactions`), or a thrown error. -/
inductive BlockFetch where
  | ok (b : Block)
  | missing
  | err
deriving DecidableEq

/-- The chain as the monitor sees it: the head block number of
`getDynamicGlobalProperties` (`none` = the call threw) and the per-number
block fetch. -/
structure Chain where
  headBlock : Option Nat
  getBlock : Nat → BlockFetch

/-- The monitor's own state: the record store, the in-memory checkpoint
and the checkpoint saved to the config table. -/
structure MonitorState where
  db : DbState
  lastProcessedBlock : Nat
  savedBlock : Nat
deriving DecidableEq

/-- `block.transaction_ids?.[i] || "blockNum-i"` — the recorded id unless
it is absent or empty. -/
def txIdAt (b : Block) (blockNum i : Nat) : List Char :=
  match b.transaction_ids.get? i with
  | some tid => if tid = [] then natChars blockNum ++ '-' :: natChars i else tid
  | none => natChars blockNum ++ '-' :: natChars i

/-- The inner operation loop of `processBlock`: transfers addressed to the
configured account are handed to `processTransfer`. -/
def processBlockOps (env : LedgerEnv) (now : Nat) (username : List Char)
    (txId : List Char) (blockNum : Nat) (ops : List (Option HiveTransfer))
    (db : DbState) : DbState :=
  ops.foldl (fun acc op =>
    match op with
    | some t => if t.toAcct = username then processTransfer env now t txId blockNum acc
                else acc
    | none => acc) db

/-- The indexed transaction loop of `processBlock`. -/
def processTxs (env : LedgerEnv) (now : Nat) (username : List Char) (b : Block)
    (blockNum : Nat) : Nat → List BlockTx → DbState → DbState
  | _, [], db => db
  | i, tx :: rest, db =>
    processTxs env now username b blockNum (i + 1) rest
      (processBlockOps env now username (txIdAt b blockNum i) blockNum tx.operations db)

/-- `processBlock(blockNum)`: fetch the block and run its transactions;
any error is caught and logged, leaving the record store unchanged. -/
def processBlock (env : LedgerEnv) (now : Nat) (username : List Char)
    (chain : Chain) (blockNum : Nat) (db : DbState) : DbState :=
  match chain.getBlock blockNum with
  | .err => db
  | .missing => db
  | .ok b => processTxs env now username b blockNum 0 b.transactions db

/-- `processNewBlocks()`: read the head, process the capped batch, then
set and save the checkpoint to the batch end — whether or not any block in
the batch failed.  A thrown head read is caught by the outer catch. -/
def processNewBlocks (env : LedgerEnv) (now : Nat) (username : List Char)
    (chain : Chain) (ms : MonitorState) : MonitorState :=
  match chain.headBlock with
  | none => ms
  | some currentBlock =>
    if currentBlock ≤ ms.lastProcessedBlock then ms
    else
      let endBlock := min (ms.lastProcessedBlock + 200) currentBlock
      let db2 := ((List.range (endBlock - ms.lastProcessedBlock)).map
        (fun k => ms.lastProcessedBlock + 1 + k)).foldl
        (fun acc bn => processBlock env now username chain bn acc) ms.db
      { db := db2, lastProcessedBlock := endBlock, savedBlock := endBlock }

/-- The chain of the counterexample: head at block 1, every block fetch
throws. -/
def failChain : Chain := ⟨some 1, fun _ => BlockFetch.err⟩

/-- The monitor state before the failing tick: nothing processed yet. -/
def msStart : MonitorState := ⟨⟨[], []⟩, 0, 0⟩

/-- C6 counterexample: on a tick where fetching block 1 fails, the
checkpoint IS advanced past the failing block (to 1) and saved there, and
the next tick does nothing — the failing block is never retried —
contradicting the claim that the checkpoint is not advanced past a
failing block on that tick and that the block is retried on the next. -/
theorem C6_counterexample :
    failChain.getBlock 1 = BlockFetch.err ∧
    (processNewBlocks envSynced 1 "op".data failChain msStart).lastProcessedBlock = 1 ∧
    (processNewBlocks envSynced 1 "op".data failChain msStart).savedBlock = 1 ∧
    processNewBlocks envSynced 2 "op".data failChain
        (processNewBlocks envSynced 1 "op".data failChain msStart) =
      processNewBlocks envSynced 1 "op".data failChain msStart := by
  decide

/-- C6 (amended): per-block failures are caught, so a tick never halts:
with a readable head strictly above the checkpoint, the tick always
completes and sets (and saves) the checkpoint to the batch end
`min(lastProcessedBlock + 200, head)` — for every chain, hence regardless
of any per-block failures, which are therefore never retried; a block
whose fetch throws contributes nothing to the record store; and with no
new blocks the tick is a no-op. -/
theorem C6_amended (env : LedgerEnv) (now : Nat) (username : List Char)
    (chain : Chain) (ms : MonitorState) (cur : Nat)
    (hhead : chain.headBlock = some cur) :
    (cur ≤ ms.lastProcessedBlock → processNewBlocks env now username chain ms = ms) ∧
    (ms.lastProcessedBlock < cur →
      (processNewBlocks env now username chain ms).lastProcessedBlock =
        min (ms.lastProcessedBlock + 200) cur ∧
      (processNewBlocks env now username chain ms).savedBlock =
        min (ms.lastProcessedBlock + 200) cur) ∧
    (∀ bn db, chain.getBlock bn = BlockFetch.err →
      processBlock env now username chain bn db = db) := by
  refine ⟨?_, ?_, ?_⟩
  · intro h
    unfold processNewBlocks
    rw [hhead]
    dsimp only
    rw [if_pos h]
  · intro h
    unfold processNewBlocks
    rw [hhead]
    dsimp only
    rw [if_neg (not_le.mpr h)]
    exact ⟨rfl, rfl⟩
  · intro bn db h
    unfold processBlock
    rw [h]

/-- Witness for C6 (amended) on the concrete failing chain. -/
theorem C6_amended_witness :
    (processNewBlocks envSynced 1 "op".data failChain msStart).lastProcessedBlock =
      min (msStart.lastProcessedBlock + 200) 1 ∧
    processBlock envSynced 1 "op".data failChain 1 ⟨[], []⟩ = ⟨[], []⟩ :=
  ⟨((C6_amended envSynced 1 "op".data failChain msStart 1 rfl).2.1 (by decide)).1,
    (C6_amended envSynced 1 "op".data failChain msStart 1 rfl).2.2 1 ⟨[], []⟩ rfl⟩

end Hivevoice
